import Mathlib

/-!
Verification development for the Knosys-to-Confluence migration backend.

The definitions below are a shallow embedding of the JavaScript source of the
migration pipeline (the Forge resolver module): the document tree data model,
the tree indexer (buildIdMap, findItemById), the content extractor
(extractHtmlFromNode), the link rewriters, the style normalizer
(convertUnits, rgbToHex), the shared-content hub logic (getOrCreatePage,
processSharedContent), the publish engine (createPage, getPageById,
updatePage) and the two-phase anchor placeholder resolution
(updateAnchorPagesOnTraversal, replaceAnchorPlaceholders).

Network calls against the Confluence page store are modelled in two ways:
at the response level (an operation receives the HTTP responses the two
identities would produce, mirroring the control flow around them exactly),
and at the store level (an explicit page-store state threaded through the
operations, modelling the success path of the REST calls).

JavaScript conventions used throughout the embedding: a possibly absent
value is an Option; string truthiness (the empty string is falsy) is
jsTruthyStr; the `a || b` idiom on strings is jsOrStr.
-/

namespace Mig

/-- JavaScript truthiness of a possibly absent string: present and non-empty. -/
def jsTruthyStr : Option String → Bool
  | some s => s ≠ ""
  | none => false

/-- The JavaScript `a || b` idiom on a possibly absent string with a fallback. -/
def jsOrStr (a : Option String) (b : String) : String :=
  match a with
  | some s => if s = "" then b else s
  | none => b

/-- One entry of a `fields` list of the export tree: `{name, value}`, either
key possibly absent. -/
structure Field where
  name : Option String
  value : Option String
deriving Repr, DecidableEq

/-- The `detail` object of a document node: id, title and itemType, each
possibly absent. -/
structure Detail where
  id : Option String
  title : Option String
  itemType : Option String
deriving Repr, DecidableEq

/-- A document node of the input export tree: optional `detail`, optional
`fields` array, optional `children` array (absent is distinct from empty,
mirroring the `Array.isArray` checks of the source). -/
inductive Node where
  | mk (detail : Option Detail) (fields : Option (List Field)) (children : Option (List Node))
deriving Repr

/-- Accessor for the `detail` key of a node. -/
def Node.detail : Node → Option Detail
  | .mk d _ _ => d

/-- Accessor for the `fields` key of a node. -/
def Node.fields : Node → Option (List Field)
  | .mk _ f _ => f

/-- Accessor for the `children` key of a node. -/
def Node.children : Node → Option (List Node)
  | .mk _ _ c => c

mutual

/-- Decidable equality for nodes (structural). -/
def Node.beq : Node → Node → Bool
  | .mk d1 f1 c1, .mk d2 f2 c2 =>
    d1 == d2 && f1 == f2 &&
      (match c1, c2 with
       | none, none => true
       | some l1, some l2 => Node.beqList l1 l2
       | _, _ => false)

/-- Decidable equality for node lists. -/
def Node.beqList : List Node → List Node → Bool
  | [], [] => true
  | x :: xs, y :: ys => Node.beq x y && Node.beqList xs ys
  | _, _ => false

end

mutual

theorem Node.beq_refl : ∀ (n : Node), Node.beq n n = true
  | .mk d f c => by
    unfold Node.beq
    cases c with
    | none => simp
    | some l => simp [Node.beqList_refl l]

theorem Node.beqList_refl : ∀ (l : List Node), Node.beqList l l = true
  | [] => by unfold Node.beqList; rfl
  | x :: xs => by
    unfold Node.beqList
    simp [Node.beq_refl x, Node.beqList_refl xs]

end

mutual

theorem Node.eq_of_beq : ∀ {n m : Node}, Node.beq n m = true → n = m
  | .mk d1 f1 c1, .mk d2 f2 c2 => by
    unfold Node.beq
    intro h
    simp only [Bool.and_eq_true, beq_iff_eq] at h
    obtain ⟨⟨hd, hf⟩, hc⟩ := h
    subst hd; subst hf
    cases c1 with
    | none =>
      cases c2 with
      | none => rfl
      | some l2 => simp at hc
    | some l1 =>
      cases c2 with
      | none => simp at hc
      | some l2 => rw [Node.eqList_of_beqList hc]

theorem Node.eqList_of_beqList : ∀ {l1 l2 : List Node}, Node.beqList l1 l2 = true → l1 = l2
  | [], [] => fun _ => rfl
  | [], _ :: _ => by unfold Node.beqList; simp
  | _ :: _, [] => by unfold Node.beqList; simp
  | x :: xs, y :: ys => by
    unfold Node.beqList
    intro h
    have h1 : Node.beq x y = true := by
      cases hxy : Node.beq x y <;> simp [hxy] at h ⊢
    have h2 : Node.beqList xs ys = true := by
      cases hxy : Node.beqList xs ys <;> simp [hxy, h1] at h ⊢
    rw [Node.eq_of_beq h1, Node.eqList_of_beqList h2]

end

instance : DecidableEq Node := fun n m =>
  if h : Node.beq n m = true then
    isTrue (Node.eq_of_beq h)
  else
    isFalse (fun he => h (he ▸ Node.beq_refl n))

/-! ## Tree indexer -/

/-- Test that the node carries a `detail` whose `id` strictly equals the given
id, mirroring `node.detail && node.detail.id === id` in `findItemById`. -/
def nodeIdMatches (n : Node) (id : String) : Bool :=
  match n.detail with
  | some d => d.id == some id
  | none => false

mutual

/-- Embedding of `findItemById`: depth-first preorder search for the first
node whose `detail.id` strictly equals the requested id. -/
def findItemById : Node → String → Option Node
  | .mk d f cs, id =>
    if nodeIdMatches (.mk d f cs) id then some (.mk d f cs)
    else
      match cs with
      | some l => findItemByIdList l id
      | none => none

/-- The child loop of `findItemById`: return the first hit among the children,
in order. -/
def findItemByIdList : List Node → String → Option Node
  | [], _ => none
  | c :: rest, id =>
    match findItemById c id with
    | some found => some found
    | none => findItemByIdList rest id

end

/-- An id-to-node map, modelling the plain JavaScript object that `buildIdMap`
mutates (assignment to a key overwrites the previous binding). -/
def IdMap := String → Option Node

/-- The head assignment of `buildIdMap`: when the node carries a truthy
`detail.id`, bind that id to the node, overwriting any previous binding. -/
def idMapInsert : Node → IdMap → IdMap
  | .mk d f cs, m =>
    match d with
    | some dt =>
      match dt.id with
      | some i =>
        if i ≠ "" then fun k => if k = i then some (.mk d f cs) else m k else m
      | none => m
    | none => m

mutual

/-- Embedding of `buildIdMap`: record the node under its `detail.id` when that
id is present and truthy (non-empty), then recurse into the children, later
assignments overwriting earlier ones. -/
def buildIdMap : Node → IdMap → IdMap
  | .mk d f cs, m =>
    match cs with
    | some l => buildIdMapList l (idMapInsert (.mk d f cs) m)
    | none => idMapInsert (.mk d f cs) m

/-- The child loop of `buildIdMap`: fold the map through the children in
order. -/
def buildIdMapList : List Node → IdMap → IdMap
  | [], m => m
  | c :: rest, m => buildIdMapList rest (buildIdMap c m)

end

mutual

/-- Depth-first preorder listing of the nodes of a tree, following the spec
wording for the traversal order of the indexer and of `findItemById`. -/
def preorder : Node → List Node
  | .mk d f (some cs) => .mk d f (some cs) :: preorderList cs
  | .mk d f none => [.mk d f none]

/-- Preorder listing of a forest, left to right. -/
def preorderList : List Node → List Node
  | [] => []
  | c :: cs => preorder c ++ preorderList cs

end

/-- The nodes of the tree carrying the given id, in depth-first preorder. -/
def idOccurrences (n : Node) (id : String) : List Node :=
  (preorder n).filter (fun m => nodeIdMatches m id)

/-! Small helper lemmas about first and last elements of lists. -/

theorem head?_append_or {a : Type} (l1 l2 : List a) :
    (l1 ++ l2).head? = (l1.head?).or l2.head? := by
  cases l1 <;> simp [Option.or]

theorem getLast?_cons_or {a : Type} (x : a) (l : List a) :
    (x :: l).getLast? = (l.getLast?).or (some x) := by
  induction l generalizing x with
  | nil => rfl
  | cons b t ih =>
    rw [List.getLast?_cons_cons, ih b]
    cases t.getLast? <;> simp [Option.or]

theorem getLast?_append_or {a : Type} (l1 l2 : List a) :
    (l1 ++ l2).getLast? = (l2.getLast?).or l1.getLast? := by
  induction l1 with
  | nil =>
    cases hg : l2.getLast? <;> simp [hg, Option.or]
  | cons x t ih =>
    rw [List.cons_append, getLast?_cons_or, ih, getLast?_cons_or]
    cases hg : l2.getLast? <;> cases ht : t.getLast? <;> simp [Option.or]

/-! Characterizations of the two lookup paths, stated against the preorder
traversal that the spec describes. -/

mutual

theorem findItemById_eq_head : ∀ (n : Node) (id : String),
    findItemById n id = ((preorder n).filter (fun m => nodeIdMatches m id)).head?
  | .mk d f cs, id => by
    cases cs with
    | none =>
      unfold findItemById preorder
      cases h : nodeIdMatches (.mk d f none) id <;> simp [h]
    | some l =>
      unfold findItemById preorder
      cases h : nodeIdMatches (.mk d f (some l)) id with
      | true => simp [h]
      | false =>
        simp only [h, Bool.false_eq_true, if_false, List.filter_cons, cond_false]
        exact findItemByIdList_eq_head l id

theorem findItemByIdList_eq_head : ∀ (l : List Node) (id : String),
    findItemByIdList l id = ((preorderList l).filter (fun m => nodeIdMatches m id)).head?
  | [], id => by unfold findItemByIdList preorderList; simp
  | c :: rest, id => by
    unfold findItemByIdList preorderList
    rw [List.filter_append, head?_append_or,
      ← findItemById_eq_head c id, ← findItemByIdList_eq_head rest id]
    cases h : findItemById c id <;> simp [h, Option.or]

end

theorem idMapInsert_apply (n : Node) (m : IdMap) (k : String) (hk : k ≠ "") :
    idMapInsert n m k = if nodeIdMatches n k then some n else m k := by
  obtain ⟨d, f, cs⟩ := n
  unfold idMapInsert nodeIdMatches
  cases d with
  | none => simp [Node.detail]
  | some dt =>
    cases hdi : dt.id with
    | none => simp [Node.detail, hdi]
    | some i =>
      simp only [Node.detail, hdi]
      by_cases hki : i = k
      · subst hki
        simp [hk]
      · by_cases hi : i = ""
        · subst hi
          simp [hki]
        · simp [hi, hki, Ne.symm hki]

mutual

theorem buildIdMap_eq_getLast : ∀ (n : Node) (m : IdMap) (k : String), k ≠ "" →
    buildIdMap n m k =
      (((preorder n).filter (fun x => nodeIdMatches x k)).getLast?).or (m k)
  | .mk d f cs, m, k, hk => by
    cases cs with
    | none =>
      simp only [buildIdMap, preorder]
      rw [idMapInsert_apply _ _ _ hk]
      cases h : nodeIdMatches (.mk d f none) k <;> simp [h, List.filter_cons, Option.or]
    | some l =>
      simp only [buildIdMap, preorder]
      rw [buildIdMapList_eq_getLast l _ k hk, idMapInsert_apply _ _ _ hk]
      cases h : nodeIdMatches (.mk d f (some l)) k with
      | true =>
        simp only [h, List.filter_cons, cond_true, if_true, getLast?_cons_or]
        cases hg : (List.filter (fun x => nodeIdMatches x k) (preorderList l)).getLast? <;>
          simp [Option.or]
      | false =>
        simp [h, List.filter_cons]

theorem buildIdMapList_eq_getLast : ∀ (l : List Node) (m : IdMap) (k : String), k ≠ "" →
    buildIdMapList l m k =
      (((preorderList l).filter (fun x => nodeIdMatches x k)).getLast?).or (m k)
  | [], m, k, hk => by simp only [buildIdMapList, preorderList]; simp [Option.or]
  | c :: rest, m, k, hk => by
    simp only [buildIdMapList, preorderList]
    rw [buildIdMapList_eq_getLast rest _ k hk, buildIdMap_eq_getLast c m k hk,
      List.filter_append, getLast?_append_or]
    cases h1 : (List.filter (fun x => nodeIdMatches x k) (preorderList rest)).getLast? <;>
      cases h2 : (List.filter (fun x => nodeIdMatches x k) (preorder c)).getLast? <;>
        simp [Option.or]

end

/-- C10: findItemById resolves a duplicated id to the first occurrence in
depth-first preorder, buildIdMap to the last occurrence in the same order, and
whenever the two occurrences differ the two lookup paths pick different nodes
for that id. -/
theorem c10_duplicate_id_lookup_mismatch (n : Node) (id : String) (hid : id ≠ "") :
    findItemById n id = (idOccurrences n id).head?
    ∧ buildIdMap n (fun _ => none) id = (idOccurrences n id).getLast?
    ∧ (∀ a b : Node, (idOccurrences n id).head? = some a →
        (idOccurrences n id).getLast? = some b → a ≠ b →
        findItemById n id ≠ buildIdMap n (fun _ => none) id) := by
  refine ⟨findItemById_eq_head n id, ?_, ?_⟩
  · rw [buildIdMap_eq_getLast n _ id hid]
    cases hg : ((preorder n).filter (fun x => nodeIdMatches x id)).getLast? <;>
      simp [idOccurrences, hg, Option.or]
  · intro a b ha hb hab
    rw [findItemById_eq_head n id, buildIdMap_eq_getLast n _ id hid]
    simp only [idOccurrences] at ha hb
    rw [ha, hb]
    simp [Option.or, hab]

/-- A concrete tree with the id x on two distinct nodes: the root and its
only child. -/
def c10Root : Node :=
  .mk (some ⟨some "x", some "root title", none⟩) none
    (some [.mk (some ⟨some "x", some "child title", none⟩) none none])

/-- Witness for C10 at a concrete duplicated-id tree: the two lookup paths
disagree. -/
theorem c10_duplicate_id_lookup_mismatch_witness :
    findItemById c10Root "x" ≠ buildIdMap c10Root (fun _ => none) "x" :=
  (c10_duplicate_id_lookup_mismatch c10Root "x" (by decide)).2.2
    (.mk (some ⟨some "x", some "root title", none⟩) none
      (some [.mk (some ⟨some "x", some "child title", none⟩) none none]))
    (.mk (some ⟨some "x", some "child title", none⟩) none none)
    (by decide) (by decide) (by decide)

/-! ## Content extractor -/

/-- Truthy named-field test used by the pair search of the extractor:
`f && f.name === nm && f.value`. -/
def fieldTruthyNamed (nm : String) (f : Field) : Bool :=
  f.name == some nm && jsTruthyStr f.value

/-- The collapsible-section (expand) macro string emitted for a truthy
LinkText/HiddenText pair. -/
def expandMacro (title body : String) : String :=
  "<ac:structured-macro ac:name=\"expand\"><ac:parameter ac:name=\"title\">" ++ title ++
    "</ac:parameter><ac:rich-text-body>" ++ body ++
    "</ac:rich-text-body></ac:structured-macro>"

/-- Emission of one field on the plain path of the extractor: a field named
HiddenText is skipped, an absent value is skipped, any other value is
appended verbatim. -/
def fieldEmitValue (f : Field) : Option String :=
  if f.name == some "HiddenText" then none else f.value

/-- The field-emission block that `extractHtmlFromNode` repeats verbatim in
its three branches (grandchild fields, child fields, own fields): a truthy
LinkText/HiddenText pair collapses to a single expand macro, otherwise the
defined field values are concatenated in order with HiddenText excluded. -/
def emitFieldsHtml (fs : List Field) : String :=
  match fs.find? (fieldTruthyNamed "LinkText"), fs.find? (fieldTruthyNamed "HiddenText") with
  | some lt, some ht => expandMacro (lt.value.getD "") (ht.value.getD "")
  | _, _ => String.join (fs.filterMap fieldEmitValue)

mutual

/-- Embedding of `extractHtmlFromNode` (full pipeline version; the unused
`isTopLevel` parameter of the source is dropped): a node with a non-empty
children array emits content for its children only; otherwise its own fields
are emitted. -/
def extractHtmlFromNode : Node → String
  | .mk _ _ (some (c :: cs)) => extractChildrenHtml (c :: cs)
  | .mk _ f _ =>
    match f with
    | some fs => emitFieldsHtml fs
    | none => ""

/-- The child loop of the extractor: a child that has a `detail` and its own
non-empty children array contributes the field emission of each of its
children (exactly one nested level); otherwise the child contributes its own
field emission when it has a fields array. -/
def extractChildrenHtml : List Node → String
  | [] => ""
  | child :: rest =>
    (match child with
     | .mk (some _) _ (some (g :: gs)) => extractGrandchildrenHtml (g :: gs)
     | .mk _ (some fs) _ => emitFieldsHtml fs
     | _ => "") ++ extractChildrenHtml rest

/-- The grandchild loop of the extractor: only the fields of each grandchild
are read; grandchild children are never visited. -/
def extractGrandchildrenHtml : List Node → String
  | [] => ""
  | g :: rest =>
    (match g.fields with
     | some fs => emitFieldsHtml fs
     | none => "") ++ extractGrandchildrenHtml rest

end

/-- Prefix test on character lists (used by the substring counter). -/
def listStartsWith : List Char → List Char → Bool
  | [], _ => true
  | _ :: _, [] => false
  | p :: ps, c :: cs => p == c && listStartsWith ps cs

/-- Number of positions of the second list at which the first list occurs. -/
def countSubstrAux (pat : List Char) : List Char → Nat
  | [] => 0
  | c :: rest => (if listStartsWith pat (c :: rest) then 1 else 0) + countSubstrAux pat rest

/-- Number of occurrences of `pat` in `s`, counted by start position. -/
def countSubstr (s pat : String) : Nat := countSubstrAux pat.data s.data

/-- Concrete node of the spec test for C3: fields LinkText is A and
HiddenText is B, no children. -/
def c3Node : Node :=
  .mk none (some [⟨some "LinkText", some "A"⟩, ⟨some "HiddenText", some "B"⟩]) none

set_option maxRecDepth 8000 in
/-- C3: a node without a non-empty children array whose fields hold a truthy
LinkText field and a truthy HiddenText field extracts to exactly the single
expand macro titled by the first truthy LinkText value with the first truthy
HiddenText value as body; at the spec test input the result contains the
expand construct exactly once and is not the raw concatenation AB. -/
theorem c3_linktext_hiddentext_pair :
    (∀ (d : Option Detail) (fs : List Field) (cs : Option (List Node)) (lt ht : Field),
      (cs = none ∨ cs = some []) →
      fs.find? (fieldTruthyNamed "LinkText") = some lt →
      fs.find? (fieldTruthyNamed "HiddenText") = some ht →
      extractHtmlFromNode (.mk d (some fs) cs) =
        expandMacro (lt.value.getD "") (ht.value.getD ""))
    ∧ countSubstr (extractHtmlFromNode c3Node) "<ac:structured-macro ac:name=\"expand\"" = 1
    ∧ extractHtmlFromNode c3Node ≠ "AB" := by
  refine ⟨?_, by decide, by decide⟩
  intro d fs cs lt ht hcs hlt hht
  rcases hcs with h | h <;> subst h <;>
    simp [extractHtmlFromNode, emitFieldsHtml, hlt, hht]

/-- Witness for C3 at the spec test node: extraction yields the expand macro
titled A with body B. -/
theorem c3_linktext_hiddentext_pair_witness :
    extractHtmlFromNode c3Node = expandMacro "A" "B" :=
  c3_linktext_hiddentext_pair.1 none
    [⟨some "LinkText", some "A"⟩, ⟨some "HiddenText", some "B"⟩] none
    ⟨some "LinkText", some "A"⟩ ⟨some "HiddenText", some "B"⟩
    (Or.inl rfl) (by decide) (by decide)

/-- Spec-side transform for the depth rule: erase everything below the first
nested level beneath each child (the children of every grandchild). -/
def pruneBelowGrandchildren : Node → Node
  | .mk d f (some l) =>
    .mk d f (some (l.map fun c =>
      match c with
      | .mk cd cf (some gl) =>
        .mk cd cf (some (gl.map fun g =>
          match g with
          | .mk gd gf _ => .mk gd gf none))
      | c => c))
  | n => n

theorem extractGrandchildrenHtml_prune (l : List Node) :
    extractGrandchildrenHtml (l.map fun g =>
      match g with | .mk gd gf _ => .mk gd gf none) = extractGrandchildrenHtml l := by
  induction l with
  | nil => rfl
  | cons g rest ih =>
    obtain ⟨gd, gf, gc⟩ := g
    simp only [List.map_cons, extractGrandchildrenHtml, Node.fields, ih]

theorem extractChildrenHtml_prune (l : List Node) :
    extractChildrenHtml (l.map fun c =>
      match c with
      | .mk cd cf (some gl) =>
        .mk cd cf (some (gl.map fun g =>
          match g with
          | .mk gd gf _ => .mk gd gf none))
      | c => c) = extractChildrenHtml l := by
  induction l with
  | nil => rfl
  | cons c rest ih =>
    obtain ⟨cd, cf, cc⟩ := c
    cases cc with
    | none =>
      simp only [List.map_cons, extractChildrenHtml, ih]
    | some gl =>
      cases gl with
      | nil => simp only [List.map_cons, List.map_nil, extractChildrenHtml, ih]
      | cons g gs =>
        cases cd with
        | none => cases cf <;> simp only [List.map_cons, extractChildrenHtml, ih]
        | some dt =>
          have hg := extractGrandchildrenHtml_prune (g :: gs)
          simp only [List.map_cons] at hg
          simp only [List.map_cons, extractChildrenHtml, ih, hg]

theorem filterMap_fieldEmitValue (fs : List Field) :
    fs.filterMap fieldEmitValue =
      (fs.filter (fun f => !(f.name == some "HiddenText"))).filterMap (fun f => f.value) := by
  induction fs with
  | nil => rfl
  | cons f rest ih =>
    by_cases h : (f.name == some "HiddenText") = true
    · simp [List.filterMap_cons, List.filter_cons, fieldEmitValue, h, ih]
    · simp [List.filterMap_cons, List.filter_cons, fieldEmitValue, h, ih]

/-- C7: extraction never descends below the first nested level beneath each
child (erasing all deeper nesting leaves the result unchanged), and a node
without children and without a truthy LinkText/HiddenText pair emits exactly
the defined values of its non-HiddenText fields, in field order. -/
theorem c7_extraction_depth_rule :
    (∀ n : Node, extractHtmlFromNode (pruneBelowGrandchildren n) = extractHtmlFromNode n)
    ∧ (∀ (d : Option Detail) (fs : List Field),
        (fs.find? (fieldTruthyNamed "LinkText") = none ∨
         fs.find? (fieldTruthyNamed "HiddenText") = none) →
        extractHtmlFromNode (.mk d (some fs) none) =
          String.join ((fs.filter (fun f => !(f.name == some "HiddenText"))).filterMap
            (fun f => f.value))) := by
  constructor
  · intro n
    obtain ⟨d, f, cs⟩ := n
    cases cs with
    | none => rfl
    | some l =>
      cases l with
      | nil => rfl
      | cons c rest =>
        have h := extractChildrenHtml_prune (c :: rest)
        simp only [List.map_cons] at h
        simp only [pruneBelowGrandchildren, List.map_cons, extractHtmlFromNode]
        exact h
  · intro d fs hpair
    simp only [extractHtmlFromNode]
    rw [← filterMap_fieldEmitValue]
    unfold emitFieldsHtml
    rcases hpair with h | h
    · simp [h]
    · cases hlt : fs.find? (fieldTruthyNamed "LinkText") <;> simp [hlt, h]

/-- Concrete deeply nested tree for the C7 witness: a child with detail and
children whose grandchild itself has further children. -/
def c7DeepNode : Node :=
  .mk none none (some [
    .mk (some ⟨some "c", none, none⟩) none (some [
      .mk none (some [⟨some "Text", some "G"⟩])
        (some [.mk none (some [⟨some "Text", some "DEEP"⟩]) none])])])

/-- Concrete fields for the C7 witness: a plain Text field and a HiddenText
field, no LinkText. -/
def c7Fields : List Field :=
  [⟨some "Text", some "T"⟩, ⟨some "HiddenText", some "H"⟩]

/-- Witness for C7 at concrete inputs: pruning below the grandchildren leaves
the extraction unchanged, and a childless node emits only its non-HiddenText
field values. -/
theorem c7_extraction_depth_rule_witness :
    extractHtmlFromNode (pruneBelowGrandchildren c7DeepNode) = extractHtmlFromNode c7DeepNode
    ∧ extractHtmlFromNode (.mk none (some c7Fields) none) =
        String.join ((c7Fields.filter (fun f => !(f.name == some "HiddenText"))).filterMap
          (fun f => f.value)) :=
  ⟨c7_extraction_depth_rule.1 c7DeepNode,
   c7_extraction_depth_rule.2 none c7Fields (Or.inl (by decide))⟩

/-! ## Internal link rewriting (anchors with data-itemid) -/

/-- JS `a || b` on two possibly absent strings, keeping absence. -/
def jsOrOpt (a b : Option String) : Option String :=
  if jsTruthyStr a then a else b

/-- The page-link construct emitted for a Document reference:
`<ac:link><ri:page .../>...</ac:link>` with content title and space key. -/
def pageLinkMacro (cleanedTitle spaceKey anchorText : String) : String :=
  "<ac:link><ri:page ri:content-title=\"" ++ cleanedTitle ++ "\" ri:space-key=\"" ++ spaceKey ++
    "\" /><ac:plain-text-link-body><![CDATA[" ++ anchorText ++
    "]]></ac:plain-text-link-body></ac:link>"

/-- The link-by-URL construct emitted for a Link reference. -/
def urlLinkMacro (url anchorText : String) : String :=
  "<ac:link><ri:url ri:value=\"" ++ url ++
    "\" /><ac:plain-text-link-body><![CDATA[" ++ anchorText ++
    "]]></ac:plain-text-link-body></ac:link>"

/-- Value of the first field named DocumentTitle of a node
(`(item.fields || []).find(f => f.name === 'DocumentTitle')?.value`). -/
def docTitleFieldValue (item : Node) : Option String :=
  match (item.fields.getD []).find? (fun f => f.name == some "DocumentTitle") with
  | some f => f.value
  | none => none

/-- Whitespace test used by the trim step of the title cleanup. -/
def isJsSpace (ch : Char) : Bool :=
  ch == ' ' || ch == '\t' || ch == '\n' || ch == '\r'

/-- Global single-character replacement on a character list, modelling a
`/x/g` regex replace. -/
def replaceAllChars (target : Char) (repl : List Char) : List Char → List Char
  | [] => []
  | ch :: rest => (if ch == target then repl else [ch]) ++ replaceAllChars target repl rest

/-- Trim of leading and trailing whitespace. -/
def trimChars (l : List Char) : List Char :=
  ((l.dropWhile isJsSpace).reverse.dropWhile isJsSpace).reverse

/-- The title cleanup applied before emission, modelling
`trim()` followed by the global replace of double quotes by the quot
entity. -/
def cleanTitle (title : String) : String :=
  String.mk (replaceAllChars (Char.ofNat 34) "&quot;".data (trimChars title.data))

/-- Embedding of the replacement callback of `insertAnchorLinksToPages` for
one matched anchor `<a ... data-itemid="itemid" ...>anchorText</a>`; the `m`
argument is the whole matched text, returned unchanged on fallthrough. -/
def insertAnchorLinksToPagesRepl (data : Node) (spaceKey m itemid anchorText : String) :
    String :=
  match findItemById data itemid with
  | some item =>
    match item.detail with
    | some d =>
      if d.itemType == some "Document" then
        pageLinkMacro
          (cleanTitle (jsOrStr d.title (jsOrStr (docTitleFieldValue item)
            (if anchorText = "" then itemid else anchorText))))
          spaceKey anchorText
      else m
    | none => m
  | none => m

/-- Embedding of the data-itemid replacement callback of
`rewriteInternalLinks` for one matched anchor. -/
def rewriteInternalLinksRepl (data : Node) (spaceKey m itemid anchorText : String) : String :=
  match findItemById data itemid with
  | some item =>
    match item.detail with
    | some d =>
      if d.itemType == some "Document" then
        pageLinkMacro (cleanTitle (jsOrStr d.title (jsOrStr (docTitleFieldValue item) "")))
          spaceKey anchorText
      else if d.itemType == some "Link" then
        match (item.fields.getD []).find? (fun f => f.name == some "URL") with
        | some urlField =>
          match urlField.value with
          | some url => if url ≠ "" then urlLinkMacro url anchorText else m
          | none => m
        | none => m
      else m
    | none => m
  | none => m

/-- Concrete tree for the C2 counterexample: a Document node with both a
title attribute T and a DocumentTitle field D. -/
def c2Tree : Node :=
  .mk (some ⟨some "root", none, none⟩) none (some [
    .mk (some ⟨some "d2", some "T", some "Document"⟩)
      (some [⟨some "DocumentTitle", some "D"⟩]) none])

/-- Counterexample to C2 as stated: for a Document node carrying both a
title attribute T and a DocumentTitle field D, both rewriters emit a page
link targeting T (the title attribute), not D (the DocumentTitle field),
contradicting the claimed DocumentTitle-first precedence. -/
theorem c2_counterexample :
    insertAnchorLinksToPagesRepl c2Tree "SK" "<a data-itemid=\"d2\">x</a>" "d2" "x" =
      pageLinkMacro "T" "SK" "x"
    ∧ rewriteInternalLinksRepl c2Tree "SK" "<a data-itemid=\"d2\">x</a>" "d2" "x" =
      pageLinkMacro "T" "SK" "x"
    ∧ pageLinkMacro "T" "SK" "x" ≠ pageLinkMacro "D" "SK" "x" := by
  refine ⟨by decide, by decide, by decide⟩

theorem jsOrStr_of_truthy (t : String) (ht : t ≠ "") (b : String) :
    jsOrStr (some t) b = t := by
  simp [jsOrStr, ht]

theorem jsOrStr_of_falsy (a : Option String) (b : String) (h : jsTruthyStr a = false) :
    jsOrStr a b = b := by
  cases a with
  | none => rfl
  | some s =>
    simp [jsTruthyStr] at h
    simp [jsOrStr, h]

/-- C2 amended: the resolution precedence for a Document reference is the
title attribute first, then the DocumentTitle field, then (for
insertAnchorLinksToPages only) the anchor text, then the id, while
rewriteInternalLinks falls back to the empty string; a Link reference is
rewritten only by rewriteInternalLinks and only when its URL field is truthy;
a reference whose node is not found is left unmodified by both. -/
theorem c2_link_resolution_amended :
    (∀ (data : Node) (spaceKey m itemid anchorText : String) (item : Node) (d : Detail)
        (t : String),
      findItemById data itemid = some item → item.detail = some d →
      d.itemType = some "Document" → d.title = some t → t ≠ "" →
      insertAnchorLinksToPagesRepl data spaceKey m itemid anchorText =
        pageLinkMacro (cleanTitle t) spaceKey anchorText
      ∧ rewriteInternalLinksRepl data spaceKey m itemid anchorText =
        pageLinkMacro (cleanTitle t) spaceKey anchorText)
    ∧ (∀ (data : Node) (spaceKey m itemid anchorText : String) (item : Node) (d : Detail)
        (v : String),
      findItemById data itemid = some item → item.detail = some d →
      d.itemType = some "Document" → jsTruthyStr d.title = false →
      docTitleFieldValue item = some v → v ≠ "" →
      insertAnchorLinksToPagesRepl data spaceKey m itemid anchorText =
        pageLinkMacro (cleanTitle v) spaceKey anchorText
      ∧ rewriteInternalLinksRepl data spaceKey m itemid anchorText =
        pageLinkMacro (cleanTitle v) spaceKey anchorText)
    ∧ (∀ (data : Node) (spaceKey m itemid anchorText : String) (item : Node) (d : Detail),
      findItemById data itemid = some item → item.detail = some d →
      d.itemType = some "Document" → jsTruthyStr d.title = false →
      jsTruthyStr (docTitleFieldValue item) = false →
      insertAnchorLinksToPagesRepl data spaceKey m itemid anchorText =
        pageLinkMacro (cleanTitle (if anchorText = "" then itemid else anchorText))
          spaceKey anchorText
      ∧ rewriteInternalLinksRepl data spaceKey m itemid anchorText =
        pageLinkMacro (cleanTitle "") spaceKey anchorText)
    ∧ (∀ (data : Node) (spaceKey m itemid anchorText : String) (item : Node) (d : Detail),
      findItemById data itemid = some item → item.detail = some d →
      d.itemType = some "Link" →
      insertAnchorLinksToPagesRepl data spaceKey m itemid anchorText = m
      ∧ (∀ (urlf : Field) (u : String),
          (item.fields.getD []).find? (fun f => f.name == some "URL") = some urlf →
          urlf.value = some u → u ≠ "" →
          rewriteInternalLinksRepl data spaceKey m itemid anchorText =
            urlLinkMacro u anchorText))
    ∧ (∀ (data : Node) (spaceKey m itemid anchorText : String),
      findItemById data itemid = none →
      insertAnchorLinksToPagesRepl data spaceKey m itemid anchorText = m
      ∧ rewriteInternalLinksRepl data spaceKey m itemid anchorText = m) := by
  refine ⟨?_, ?_, ?_, ?_, ?_⟩
  · intro data spaceKey m itemid anchorText item d t hfind hdet hty htitle ht
    unfold insertAnchorLinksToPagesRepl rewriteInternalLinksRepl
    simp only [hfind, hdet, hty, htitle]
    rw [jsOrStr_of_truthy t ht, jsOrStr_of_truthy t ht]
    simp
  · intro data spaceKey m itemid anchorText item d v hfind hdet hty htitle hdv hv
    unfold insertAnchorLinksToPagesRepl rewriteInternalLinksRepl
    simp only [hfind, hdet, hty]
    rw [jsOrStr_of_falsy _ _ htitle, jsOrStr_of_falsy _ _ htitle, hdv,
      jsOrStr_of_truthy v hv, jsOrStr_of_truthy v hv]
    simp
  · intro data spaceKey m itemid anchorText item d hfind hdet hty htitle hdv
    unfold insertAnchorLinksToPagesRepl rewriteInternalLinksRepl
    simp only [hfind, hdet, hty]
    rw [jsOrStr_of_falsy _ _ htitle, jsOrStr_of_falsy _ _ htitle,
      jsOrStr_of_falsy _ _ hdv, jsOrStr_of_falsy _ _ hdv]
    simp
  · intro data spaceKey m itemid anchorText item d hfind hdet hty
    unfold insertAnchorLinksToPagesRepl rewriteInternalLinksRepl
    simp only [hfind, hdet, hty]
    constructor
    · simp
    · intro urlf u hurl huv hu
      simp [hurl, huv, hu]
  · intro data spaceKey m itemid anchorText hfind
    unfold insertAnchorLinksToPagesRepl rewriteInternalLinksRepl
    simp [hfind]

/-- Concrete tree for the C2 witness: a Document node with a DocumentTitle
field but no title attribute, and a Link node with a URL field. -/
def c2WitnessTree : Node :=
  .mk (some ⟨some "root", none, none⟩) none (some [
    .mk (some ⟨some "d3", none, some "Document"⟩)
      (some [⟨some "DocumentTitle", some "D"⟩]) none,
    .mk (some ⟨some "d4", none, some "Link"⟩)
      (some [⟨some "URL", some "https://e"⟩]) none])

/-- Witness for the amended C2 at concrete inputs: DocumentTitle is used when
the title attribute is absent, a Link reference becomes a URL link, and an
unresolvable reference is left unmodified. -/
theorem c2_link_resolution_amended_witness :
    insertAnchorLinksToPagesRepl c2WitnessTree "SK" "M" "d3" "x" =
      pageLinkMacro (cleanTitle "D") "SK" "x"
    ∧ rewriteInternalLinksRepl c2WitnessTree "SK" "M" "d4" "x" = urlLinkMacro "https://e" "x"
    ∧ insertAnchorLinksToPagesRepl c2WitnessTree "SK" "M" "nope" "x" = "M" :=
  ⟨(c2_link_resolution_amended.2.1 c2WitnessTree "SK" "M" "d3" "x"
      (.mk (some ⟨some "d3", none, some "Document"⟩)
        (some [⟨some "DocumentTitle", some "D"⟩]) none)
      ⟨some "d3", none, some "Document"⟩ "D"
      (by decide) rfl rfl (by decide) (by decide) (by decide)).1,
   (c2_link_resolution_amended.2.2.2.1 c2WitnessTree "SK" "M" "d4" "x"
      (.mk (some ⟨some "d4", none, some "Link"⟩)
        (some [⟨some "URL", some "https://e"⟩]) none)
      ⟨some "d4", none, some "Link"⟩
      (by decide) rfl rfl).2
      ⟨some "URL", some "https://e"⟩ "https://e" (by decide) rfl (by decide),
   (c2_link_resolution_amended.2.2.2.2 c2WitnessTree "SK" "M" "nope" "x" (by decide)).1⟩

/-! ## Style normalizer: unit conversion and color conversion -/

/-- Character class of the number pattern of convertUnits: digits and dots. -/
def isNumChar (ch : Char) : Bool := ch.isDigit || ch == '.'

/-- Numeric value of a digit run. -/
def digitsVal (l : List Char) : Nat :=
  l.foldl (fun acc ch => acc * 10 + (ch.toNat - 48)) 0

/-- A nonnegative decimal number num / 10 ^ exp: the exact value of a parsed
numeric token. -/
structure DecNum where
  num : Nat
  exp : Nat
deriving Repr, DecidableEq

/-- parseFloat on a token matched by the number pattern: integer digits, an
optional dot, fraction digits (a second dot stops the parse); no digits at
all parses to NaN (none). -/
def parseFloatNum (l : List Char) : Option DecNum :=
  let ip := l.takeWhile Char.isDigit
  let r := l.dropWhile Char.isDigit
  match r with
  | '.' :: r2 =>
    let fp := r2.takeWhile Char.isDigit
    if ip.isEmpty && fp.isEmpty then none
    else some ⟨digitsVal ip * 10 ^ fp.length + digitsVal fp, fp.length⟩
  | _ => if ip.isEmpty then none else some ⟨digitsVal ip, 0⟩

/-- Integer of hundredths rendered by toFixed(2) on the exact fraction
a / b: round half up of 100 * a / b. -/
def roundedCentis (a b : Nat) : Nat := (200 * a + b) / (2 * b)

/-- JS Number.toFixed(2) on the exact nonnegative rational a / b: round half
up to two decimals and render with exactly two fraction digits. The source
computes in binary floating point; at the fixed unit ratios of the source
the exact computation renders the same text. -/
def toFixed2Frac (a b : Nat) : String :=
  let n := roundedCentis a b
  toString (n / 100) ++ "." ++ (if n % 100 < 10 then "0" else "") ++ toString (n % 100)

/-- Replacement for one matched cm token: multiply by 37.8, render px. -/
def cmRepl (numTok : List Char) : List Char :=
  match parseFloatNum numTok with
  | some d => (toFixed2Frac (d.num * 378) (10 ^ d.exp * 10)).data ++ ['p', 'x']
  | none => "NaNpx".data

/-- Replacement for one matched pt token: multiply by 1.333, render px. -/
def ptRepl (numTok : List Char) : List Char :=
  match parseFloatNum numTok with
  | some d => (toFixed2Frac (d.num * 1333) (10 ^ d.exp * 1000)).data ++ ['p', 'x']
  | none => "NaNpx".data

/-- Fueled scanner for the global replace of number-whitespace-unit tokens:
at a digit or dot, the maximal numeric run, optional whitespace and the unit
are matched and replaced; otherwise the character is kept. The fuel is the
input length, which bounds the recursion since every step consumes at least
one character. -/
def scanUnitAux (unit : List Char) (repl : List Char → List Char) :
    Nat → List Char → List Char
  | 0, l => l
  | _ + 1, [] => []
  | fuel + 1, ch :: rest =>
    if isNumChar ch then
      let numTok := (ch :: rest).takeWhile isNumChar
      let r2 := ((ch :: rest).dropWhile isNumChar).dropWhile isJsSpace
      if listStartsWith unit r2 then
        repl numTok ++ scanUnitAux unit repl fuel (r2.drop unit.length)
      else ch :: scanUnitAux unit repl fuel rest
    else ch :: scanUnitAux unit repl fuel rest

/-- Embedding of `convertUnits`: replace every cm length, then every pt
length, by the converted px length. -/
def convertUnits (style : String) : String :=
  let afterCm := scanUnitAux ['c', 'm'] cmRepl style.data.length style.data
  String.mk (scanUnitAux ['p', 't'] ptRepl afterCm.length afterCm)

/-- parseInt base 10 after trim: value of the leading digits; the no-digit
NaN case behaves as 0 under the bit arithmetic of the hex formula. -/
def parseIntTrimmed (l : List Char) : Nat :=
  digitsVal ((l.dropWhile isJsSpace).takeWhile Char.isDigit)

/-- Hex rendering of rgbToHex:
the base-16 digits of (1 <<< 24) + (r <<< 16) + (g <<< 8) + b without the
leading 1 digit. -/
def rgbHex (r g b : Nat) : List Char :=
  (Nat.toDigits 16 (2 ^ 24 + r * 2 ^ 16 + g * 2 ^ 8 + b)).drop 1

/-- Replacement for one matched rgb/rgba argument list: split on commas,
parse the first three entries, emit the hex color. -/
def rgbRepl (inner : List Char) : List Char :=
  let parts := inner.splitOn ','
  '#' :: rgbHex (parseIntTrimmed (parts.getD 0 []))
    (parseIntTrimmed (parts.getD 1 [])) (parseIntTrimmed (parts.getD 2 []))

/-- Fueled scanner for the global replace of rgb(...) and rgba(...) groups:
the group name with optional a, an opening parenthesis, a non-empty argument
run and a closing parenthesis are replaced; on any failure one character is
emitted and scanning resumes. -/
def scanRgbAux : Nat → List Char → List Char
  | 0, l => l
  | _ + 1, [] => []
  | fuel + 1, 'r' :: 'g' :: 'b' :: rest =>
    (match (match rest with | 'a' :: t => t | t => t) with
     | '(' :: t =>
       let inner := t.takeWhile (fun c2 => !(c2 == ')'))
       let after := t.dropWhile (fun c2 => !(c2 == ')'))
       if inner.isEmpty then 'r' :: scanRgbAux fuel ('g' :: 'b' :: rest)
       else
         match after with
         | ')' :: t2 => rgbRepl inner ++ scanRgbAux fuel t2
         | _ => 'r' :: scanRgbAux fuel ('g' :: 'b' :: rest)
     | _ => 'r' :: scanRgbAux fuel ('g' :: 'b' :: rest))
  | fuel + 1, ch :: rest => ch :: scanRgbAux fuel rest

/-- Embedding of `rgbToHex`. -/
def rgbToHex (s : String) : String := String.mk (scanRgbAux s.data.length s.data)

/-- C8: the style value 10pt normalizes to exactly 13.33px and 1cm to
exactly 37.80px (cm at 37.8 px and pt at 1.333 px, rounded to two
decimals), and the colors rgb(255,0,0) and rgba(255,0,0,1) normalize to the
6-digit hex color. -/
theorem c8_style_normalization_values :
    convertUnits "10pt" = "13.33px"
    ∧ convertUnits "1cm" = "37.80px"
    ∧ rgbToHex "rgb(255,0,0)" = "#ff0000"
    ∧ rgbToHex "rgba(255,0,0,1)" = "#ff0000" :=
  ⟨by decide, by decide, by decide, by decide⟩

/-! ## Publish engine: authorization fallback at the response level -/

/-- An HTTP response as the source reads it: ok flag, status, body text.
The body stands for the payload (the parsed JSON on success, the error text
on failure). -/
structure HttpRes where
  ok : Bool
  status : Nat
  body : String
deriving Repr, DecidableEq

/-- The primary-identity failure surfaced when the fallback does not
succeed: the asApp status and response body. -/
structure PrimaryFailure where
  status : Nat
  body : String
deriving Repr, DecidableEq

/-- Embedding of `getPageById` at the response level: the parameters are the
responses the page store returns to the asApp request and, when one is
issued, to the asUser request (none stands for a thrown network error, which
the source catches). Success returns the payload of the succeeding
response; failure surfaces the asApp status and body. -/
def getPageById (asAppRes : HttpRes) (asUserRes : Option HttpRes) :
    Except PrimaryFailure String :=
  if asAppRes.ok then .ok asAppRes.body
  else if asAppRes.status = 404 then
    match asUserRes with
    | some u =>
      if u.ok then .ok u.body
      else .error ⟨asAppRes.status, asAppRes.body⟩
    | none => .error ⟨asAppRes.status, asAppRes.body⟩
  else .error ⟨asAppRes.status, asAppRes.body⟩

/-- The version field sent by `updatePage`:
`(currentVersionNumber ?? 0) + 1`. -/
def updateVersionNumber (currentVersionNumber : Option Nat) : Nat :=
  currentVersionNumber.getD 0 + 1

/-- Embedding of `updatePage` at the response level: the same fallback
control flow as `getPageById`, around the PUT requests of the two
identities. -/
def updatePage (asAppRes : HttpRes) (asUserRes : Option HttpRes) :
    Except PrimaryFailure String :=
  if asAppRes.ok then .ok asAppRes.body
  else if asAppRes.status = 404 then
    match asUserRes with
    | some u =>
      if u.ok then .ok u.body
      else .error ⟨asAppRes.status, asAppRes.body⟩
    | none => .error ⟨asAppRes.status, asAppRes.body⟩
  else .error ⟨asAppRes.status, asAppRes.body⟩

/-- C5: for both the page fetch and the page update, a primary 404 followed
by a succeeding secondary response returns the secondary payload and
surfaces no failure; when the primary fails and the secondary does not
succeed (it fails, errors, or is never issued because the primary status is
not 404), the surfaced error carries the primary status and body. -/
theorem c5_authorization_fallback :
    (∀ (app u : HttpRes), app.ok = false → app.status = 404 → u.ok = true →
      getPageById app (some u) = .ok u.body ∧ updatePage app (some u) = .ok u.body)
    ∧ (∀ (app : HttpRes) (u : Option HttpRes), app.ok = false →
      (∀ r, u = some r → r.ok = false) →
      getPageById app u = .error ⟨app.status, app.body⟩
      ∧ updatePage app u = .error ⟨app.status, app.body⟩) := by
  constructor
  · intro app u h1 h2 h3
    constructor <;> simp [getPageById, updatePage, h1, h2, h3]
  · intro app u h1 h2
    constructor
    · simp only [getPageById, h1, Bool.false_eq_true, if_false]
      by_cases h4 : app.status = 404
      · cases u with
        | none => simp [h4]
        | some r => simp [h4, h2 r rfl]
      · simp [h4]
    · simp only [updatePage, h1, Bool.false_eq_true, if_false]
      by_cases h4 : app.status = 404
      · cases u with
        | none => simp [h4]
        | some r => simp [h4, h2 r rfl]
      · simp [h4]

/-- Witness for C5: a concrete primary 404 with a succeeding secondary
returns the secondary payload for both operations, and with a failing
secondary the primary status and body are surfaced. -/
theorem c5_authorization_fallback_witness :
    getPageById ⟨false, 404, "nf"⟩ (some ⟨true, 200, "payload"⟩) = .ok "payload"
    ∧ updatePage ⟨false, 404, "nf"⟩ (some ⟨true, 200, "payload"⟩) = .ok "payload"
    ∧ getPageById ⟨false, 404, "nf"⟩ (some ⟨false, 403, "denied"⟩) = .error ⟨404, "nf"⟩ :=
  ⟨(c5_authorization_fallback.1 ⟨false, 404, "nf"⟩ ⟨true, 200, "payload"⟩ rfl rfl rfl).1,
   (c5_authorization_fallback.1 ⟨false, 404, "nf"⟩ ⟨true, 200, "payload"⟩ rfl rfl rfl).2,
   (c5_authorization_fallback.2 ⟨false, 404, "nf"⟩ (some ⟨false, 403, "denied"⟩) rfl
      (fun r hr => by cases hr; rfl)).1⟩

/-! ## Page store model: the success path of the REST calls as explicit
state -/

/-- A persisted page record of the target store. -/
structure PageRec where
  id : Nat
  spaceId : String
  title : String
  body : String
  version : Nat
deriving Repr, DecidableEq

/-- The page store: the persisted pages and the next fresh page id. -/
structure Store where
  pages : List PageRec
  nextId : Nat
deriving Repr, DecidableEq

/-- Embedding of `createPage` against the store: the POST creates the page
at version 1 with the body wrapped in a div, exactly as the source sends
it. -/
def createPageSt (spaceId title htmlValue : String) (st : Store) : PageRec × Store :=
  let p : PageRec := ⟨st.nextId, spaceId, title, "<div>" ++ htmlValue ++ "</div>", 1⟩
  (p, ⟨st.pages ++ [p], st.nextId + 1⟩)

/-- The store read behind `getPageById`: the page of the given id when
present; absence is the 404 case. -/
def getPageByIdSt (pageId : Nat) (st : Store) : Option PageRec :=
  st.pages.find? (fun q => q.id == pageId)

/-- Replacement of the record of a page id in the store list (the effect of
a successful PUT on the stored collection). -/
def replaceById (pid : Nat) (p2 : PageRec) : List PageRec → List PageRec
  | [] => []
  | q :: rest =>
    match q.id == pid with
    | true => p2 :: replaceById pid p2 rest
    | false => q :: replaceById pid p2 rest

/-- Embedding of `updatePage` against the store: the PUT replaces title,
space and body (wrapped in a div) and stamps
version = currentVersionNumber + 1; a missing page is the failure case. -/
def updatePageSt (pageId : Nat) (title spaceId htmlValue : String)
    (currentVersionNumber : Nat) (st : Store) : Except String (PageRec × Store) :=
  match st.pages.find? (fun q => q.id == pageId) with
  | none => .error "PUT page failed: 404"
  | some p =>
    let p2 : PageRec := { p with
      title := title
      spaceId := spaceId
      body := "<div>" ++ htmlValue ++ "</div>"
      version := currentVersionNumber + 1 }
    .ok (p2, ⟨replaceById pageId p2 st.pages, st.nextId⟩)

/-- Embedding of `getOrCreatePage`: look the page up by space and title (the
GET by spaceId and title), reuse the first hit, else create. -/
def getOrCreatePageSt (spaceId title htmlContent : String) (st : Store) : PageRec × Store :=
  match st.pages.find? (fun q => q.spaceId == spaceId && q.title == title) with
  | some p => (p, st)
  | none => createPageSt spaceId title htmlContent st

/-- The update branch of `migrateJsonToPage`: fetch the page, read its
version number, and update passing that version (the update stamps
version + 1). -/
def migrateUpdatePath (pageId : Nat) (title spaceId html : String) (st : Store) :
    Except String (PageRec × Store) :=
  match getPageByIdSt pageId st with
  | none => .error "GET page failed: 404"
  | some existing => updatePageSt pageId title spaceId html existing.version st

theorem find?_replaceById (pages : List PageRec) (pid : Nat) (p p2 : PageRec)
    (h2 : (p2.id == pid) = true)
    (h : pages.find? (fun q => q.id == pid) = some p) :
    (replaceById pid p2 pages).find? (fun q => q.id == pid) = some p2 := by
  induction pages with
  | nil => simp at h
  | cons a rest ih =>
    cases ha : (a.id == pid) with
    | true => simp [replaceById, ha, List.find?_cons, h2]
    | false =>
      simp only [List.find?_cons, ha] at h
      simp [replaceById, ha, List.find?_cons, ih h]

theorem map_id_replaceById (pages : List PageRec) (pid : Nat) (p2 : PageRec)
    (h2 : p2.id = pid) :
    (replaceById pid p2 pages).map (fun q => q.id) = pages.map (fun q => q.id) := by
  induction pages with
  | nil => rfl
  | cons a rest ih =>
    cases ha : (a.id == pid) with
    | true =>
      have haid : a.id = pid := by simpa using ha
      simp [replaceById, ha, h2, haid, ih]
    | false => simp [replaceById, ha, ih]

theorem length_replaceById (pages : List PageRec) (pid : Nat) (p2 : PageRec) :
    (replaceById pid p2 pages).length = pages.length := by
  induction pages with
  | nil => rfl
  | cons a rest ih =>
    cases ha : (a.id == pid) <;> simp [replaceById, ha, ih]

/-- C6: the update path reads the current version v and writes v + 1; a
second sequential update with the same pageId stores exactly v + 2 (one more
than the version after the first call), leaves the page ids and the page
count unchanged, and allocates no new page id. -/
theorem c6_update_version_increment (pageId : Nat)
    (title spaceId html title2 html2 : String) (st : Store) (p : PageRec)
    (hp : getPageByIdSt pageId st = some p) :
    ∃ p1 st1 p2 st2,
      migrateUpdatePath pageId title spaceId html st = .ok (p1, st1)
      ∧ migrateUpdatePath pageId title2 spaceId html2 st1 = .ok (p2, st2)
      ∧ p1.version = p.version + 1
      ∧ p2.version = p1.version + 1
      ∧ getPageByIdSt pageId st2 = some p2
      ∧ st1.pages.map (fun q => q.id) = st.pages.map (fun q => q.id)
      ∧ st2.pages.map (fun q => q.id) = st1.pages.map (fun q => q.id)
      ∧ st2.pages.length = st.pages.length
      ∧ st2.nextId = st.nextId := by
  have hfind : st.pages.find? (fun q => q.id == pageId) = some p := hp
  have hpid : (p.id == pageId) = true := by
    have h := List.find?_some hfind
    simpa using h
  set p1 : PageRec := { p with
    title := title
    spaceId := spaceId
    body := "<div>" ++ html ++ "</div>"
    version := p.version + 1 } with hp1def
  have h1id : (p1.id == pageId) = true := hpid
  set pgs1 : List PageRec := replaceById pageId p1 st.pages with hpgs1
  have hfind1 : pgs1.find? (fun q => q.id == pageId) = some p1 :=
    find?_replaceById st.pages pageId p p1 h1id hfind
  set p2 : PageRec := { p1 with
    title := title2
    spaceId := spaceId
    body := "<div>" ++ html2 ++ "</div>"
    version := p1.version + 1 } with hp2def
  have h2id : (p2.id == pageId) = true := hpid
  set pgs2 : List PageRec := replaceById pageId p2 pgs1 with hpgs2
  refine ⟨p1, ⟨pgs1, st.nextId⟩, p2, ⟨pgs2, st.nextId⟩, ?_, ?_, rfl, rfl, ?_, ?_, ?_, ?_, rfl⟩
  · simp only [migrateUpdatePath, getPageByIdSt, updatePageSt, hfind]
  · simp only [migrateUpdatePath, getPageByIdSt, updatePageSt, hfind1]
  · exact find?_replaceById pgs1 pageId p1 p2 h2id hfind1
  · exact map_id_replaceById st.pages pageId p1 (by simpa using h1id)
  · exact map_id_replaceById pgs1 pageId p2 (by simpa using h2id)
  · show pgs2.length = st.pages.length
    rw [hpgs2, hpgs1, length_replaceById, length_replaceById]

/-- Concrete page for the C6 witness. -/
def c6Page : PageRec := ⟨7, "10", "T", "B", 3⟩

/-- Concrete one-page store for the C6 witness. -/
def c6St : Store := ⟨[c6Page], 8⟩

/-- Witness for C6 at a concrete store: two sequential updates of page 7. -/
theorem c6_update_version_increment_witness :
    ∃ p1 st1 p2 st2,
      migrateUpdatePath 7 "t" "10" "<p>a</p>" c6St = .ok (p1, st1)
      ∧ migrateUpdatePath 7 "t2" "10" "<p>b</p>" st1 = .ok (p2, st2)
      ∧ p1.version = c6Page.version + 1
      ∧ p2.version = p1.version + 1
      ∧ getPageByIdSt 7 st2 = some p2
      ∧ st1.pages.map (fun q => q.id) = c6St.pages.map (fun q => q.id)
      ∧ st2.pages.map (fun q => q.id) = st1.pages.map (fun q => q.id)
      ∧ st2.pages.length = c6St.pages.length
      ∧ st2.nextId = c6St.nextId :=
  c6_update_version_increment 7 "t" "10" "<p>a</p>" "t2" "<p>b</p>" c6St c6Page (by decide)

/-! ## Shared-content deduplication (hub pages) -/

/-- The include (transclusion) macro generated for a hub page. -/
def generateIncludeMacro (spaceKey pageTitle : String) : String :=
  "<ac:structured-macro ac:name=\"include\" ac:schema-version=\"1\"><ac:parameter ac:name=\"\"><ac:link><ri:page ri:space-key=\"" ++
    spaceKey ++ "\" ri:content-title=\"" ++ pageTitle ++
    "\" /></ac:link></ac:parameter></ac:structured-macro>"

/-- The sentinel image filename that the image logic skips. -/
def sentinelImage : String := "2e6d82ef-524c-ea11-a960-000d3ad095fb.png"

/-- The image-embed macro for an attachment filename; the empty and the
sentinel filename produce no macro. -/
def generateImageMacro (filename : String) : String :=
  if filename = "" ∨ filename = sentinelImage then ""
  else "<p><ac:image><ri:attachment ri:filename=\"" ++ filename ++ "\"/></ac:image></p>"

/-- Trim, as applied to the ParagraphTitle value. -/
def jsTrim (s : String) : String := String.mk (trimChars s.data)

/-- The field fold of the SharedParagraph branch: the last ParagraphTitle
value (trimmed) and the last Text value, each defaulting to the empty
string. -/
def sharedParagraphFields (fs : List Field) : String × String :=
  fs.foldl (fun acc f =>
    let t := if f.name == some "ParagraphTitle" then jsTrim (jsOrStr f.value "") else acc.1
    let v := if f.name == some "Text" then jsOrStr f.value "" else acc.2
    (t, v)) ("", "")

/-- Accumulated state of the shared-content pass: the include macros emitted
so far, the image title map (later bindings shadow earlier ones), and the
page store. -/
structure SharedAcc where
  macros : List String
  imageTitleMap : List (String × String)
  store : Store

/-- The Image branch of the recurse loop of `processSharedContent`. -/
def processImageStep (imageHubSpaceId : String) (dd : Detail) (acc : SharedAcc) :
    SharedAcc :=
  if dd.itemType == some "Image" then
    match dd.id with
    | some itemId =>
      if itemId ≠ "" ∧ itemId ≠ sentinelImage then
        let titleValue := jsOrStr dd.title itemId
        let imageMacro := generateImageMacro (itemId ++ ".png")
        { acc with
          imageTitleMap := acc.imageTitleMap ++ [(itemId, titleValue)]
          store := (getOrCreatePageSt imageHubSpaceId titleValue imageMacro acc.store).2 }
      else acc
    | none => acc
  else acc

/-- The SharedParagraph branch of the recurse loop of
`processSharedContent`: get or create the hub page by title in the shared
space and emit an include macro referencing it by title and space key. -/
def processSharedParagraphStep (sharedParagraphSpaceId sharedParagraphSpaceKey : String)
    (dd : Detail) (fs : List Field) (acc : SharedAcc) : SharedAcc :=
  if dd.itemType == some "SharedParagraph" then
    let tv := sharedParagraphFields fs
    if tv.1 ≠ "" ∧ tv.2 ≠ "" then
      { acc with
        macros := acc.macros ++ [generateIncludeMacro sharedParagraphSpaceKey tv.1]
        store := (getOrCreatePageSt sharedParagraphSpaceId tv.1 tv.2 acc.store).2 }
    else acc
  else acc

mutual

/-- One child step of the recurse loop of `processSharedContent`: the Image
branch, then the SharedParagraph branch, then the recursion into the
children array. -/
def processSharedNode (spidP spidI skeyP : String) : Node → SharedAcc → SharedAcc
  | .mk d f cs, acc =>
    let acc1 := match d with
      | some dd => processImageStep spidI dd acc
      | none => acc
    let acc2 := match d with
      | some dd => processSharedParagraphStep spidP skeyP dd (f.getD []) acc1
      | none => acc1
    match cs with
    | some l => processSharedList spidP spidI skeyP l acc2
    | none => acc2

/-- The child loop of the recurse of `processSharedContent`. -/
def processSharedList (spidP spidI skeyP : String) : List Node → SharedAcc → SharedAcc
  | [], acc => acc
  | cNode :: rest, acc =>
    processSharedList spidP spidI skeyP rest (processSharedNode spidP spidI skeyP cNode acc)

end

/-- Embedding of `processSharedContent` after space-id resolution (the
source first resolves the two space keys to numeric ids and aborts when
either is missing; that wrapper is modelled in the request pipeline): the
recursion starts at the children of the root, so the root itself is not
examined. -/
def processSharedContent (spidP spidI skeyP : String) (data : Node) (acc : SharedAcc) :
    SharedAcc :=
  processSharedList spidP spidI skeyP (data.children.getD []) acc

/-- The deduplication invariant: no two stored pages share a space and a
title. -/
def dedupInv (st : Store) : Prop :=
  st.pages.Pairwise (fun p q => ¬(p.spaceId = q.spaceId ∧ p.title = q.title))

theorem getOrCreatePageSt_dedup (spaceId title htmlContent : String) (st : Store)
    (h : dedupInv st) : dedupInv (getOrCreatePageSt spaceId title htmlContent st).2 := by
  unfold getOrCreatePageSt
  cases hf : st.pages.find? (fun q => q.spaceId == spaceId && q.title == title) with
  | some p => exact h
  | none =>
    unfold createPageSt dedupInv
    simp only []
    rw [List.pairwise_append]
    refine ⟨h, List.pairwise_singleton _ _, ?_⟩
    intro a ha b hb
    rw [List.find?_eq_none] at hf
    have hfa := hf a ha
    simp only [List.mem_singleton] at hb
    subst hb
    simp only [Bool.and_eq_true, beq_iff_eq, not_and] at hfa
    intro hcontra
    exact hfa hcontra.1 hcontra.2

theorem processImageStep_dedup (spidI : String) (dd : Detail) (acc : SharedAcc)
    (h : dedupInv acc.store) : dedupInv (processImageStep spidI dd acc).store := by
  unfold processImageStep
  split
  · cases dd.id with
    | none => exact h
    | some itemId =>
      dsimp only
      by_cases hid : itemId ≠ "" ∧ itemId ≠ sentinelImage
      · rw [if_pos hid]
        exact getOrCreatePageSt_dedup _ _ _ _ h
      · rw [if_neg hid]
        exact h
  · exact h

theorem processSharedParagraphStep_dedup (spidP skeyP : String) (dd : Detail)
    (fs : List Field) (acc : SharedAcc) (h : dedupInv acc.store) :
    dedupInv (processSharedParagraphStep spidP skeyP dd fs acc).store := by
  unfold processSharedParagraphStep
  split
  · dsimp only
    by_cases htv : (sharedParagraphFields fs).1 ≠ "" ∧ (sharedParagraphFields fs).2 ≠ ""
    · rw [if_pos htv]
      exact getOrCreatePageSt_dedup _ _ _ _ h
    · rw [if_neg htv]
      exact h
  · exact h

mutual

theorem processSharedNode_dedup : ∀ (spidP spidI skeyP : String) (n : Node)
    (acc : SharedAcc), dedupInv acc.store →
    dedupInv (processSharedNode spidP spidI skeyP n acc).store
  | spidP, spidI, skeyP, .mk d f cs, acc, hinv => by
    cases d with
    | none =>
      cases cs with
      | some l =>
        simp only [processSharedNode]
        exact processSharedList_dedup spidP spidI skeyP l acc hinv
      | none => simpa only [processSharedNode] using hinv
    | some dd =>
      have h1 := processImageStep_dedup spidI dd acc hinv
      have h2 := processSharedParagraphStep_dedup spidP skeyP dd (f.getD []) _ h1
      cases cs with
      | some l =>
        simp only [processSharedNode]
        exact processSharedList_dedup spidP spidI skeyP l _ h2
      | none =>
        simpa only [processSharedNode] using h2

theorem processSharedList_dedup : ∀ (spidP spidI skeyP : String) (l : List Node)
    (acc : SharedAcc), dedupInv acc.store →
    dedupInv (processSharedList spidP spidI skeyP l acc).store
  | _, _, _, [], _, hinv => hinv
  | spidP, spidI, skeyP, cNode :: rest, acc, hinv => by
    simp only [processSharedList]
    exact processSharedList_dedup spidP spidI skeyP rest _
      (processSharedNode_dedup spidP spidI skeyP cNode acc hinv)

end

/-- Concrete tree for the C4 scenario: two SharedParagraph children with the
same ParagraphTitle and Text. -/
def c4Tree : Node :=
  .mk (some ⟨some "root", none, none⟩) none (some [
    .mk (some ⟨some "s1", none, some "SharedParagraph"⟩)
      (some [⟨some "ParagraphTitle", some "Shared T"⟩, ⟨some "Text", some "<p>b</p>"⟩]) none,
    .mk (some ⟨some "s2", none, some "SharedParagraph"⟩)
      (some [⟨some "ParagraphTitle", some "Shared T"⟩, ⟨some "Text", some "<p>b</p>"⟩]) none])

set_option maxRecDepth 8000 in
/-- C4: the shared-content pass preserves the at-most-one-page-per-space-
and-title invariant (get-or-create never duplicates a hub page), and on a
tree with two SharedParagraph nodes of identical ParagraphTitle starting
from an empty store exactly one hub page is created while both reference
sites emit the identical include macro pointing at it by title. -/
theorem c4_shared_content_dedup :
    (∀ (spidP spidI skeyP : String) (data : Node) (acc : SharedAcc),
      dedupInv acc.store →
      dedupInv (processSharedContent spidP spidI skeyP data acc).store)
    ∧ (processSharedContent "1" "2" "SP" c4Tree ⟨[], [], ⟨[], 0⟩⟩).macros =
        [generateIncludeMacro "SP" "Shared T", generateIncludeMacro "SP" "Shared T"]
    ∧ (processSharedContent "1" "2" "SP" c4Tree ⟨[], [], ⟨[], 0⟩⟩).store.pages.map
        (fun q => (q.spaceId, q.title)) = [("1", "Shared T")] := by
  refine ⟨?_, by decide, by decide⟩
  intro spidP spidI skeyP data acc hinv
  unfold processSharedContent
  exact processSharedList_dedup spidP spidI skeyP _ acc hinv

/-- Witness for C4: the invariant conjunct applied at the concrete scenario
store. -/
theorem c4_shared_content_dedup_witness :
    dedupInv (processSharedContent "1" "2" "SP" c4Tree ⟨[], [], ⟨[], 0⟩⟩).store :=
  c4_shared_content_dedup.1 "1" "2" "SP" c4Tree ⟨[], [], ⟨[], 0⟩⟩
    (List.Pairwise.nil)

/-! ## Phase-2 anchor placeholder resolution -/

/-- One step of the phase-2 descent: the first child with a non-empty fields
array, else the first child
(`target.children.find(c => Array.isArray(c.fields) && c.fields.length > 0) || target.children[0]`). -/
def nextDescendant (c : Node) (cs : List Node) : Node :=
  ((c :: cs).find? (fun x =>
    match x.fields with
    | some (_ :: _) => true
    | _ => false)).getD c

theorem nextDescendant_mem (c : Node) (cs : List Node) : nextDescendant c cs ∈ c :: cs := by
  unfold nextDescendant
  cases hf : (c :: cs).find? (fun x =>
      match x.fields with
      | some (_ :: _) => true
      | _ => false) with
  | some x => simpa using List.mem_of_find?_eq_some hf
  | none => simp

/-- The descent loop shared by `replaceAnchorPlaceholders` and
`updateAnchorPagesOnTraversal`: while the current node has a non-empty
children array, step to `nextDescendant`. -/
def deepestFieldChild : Node → Node
  | .mk _d _f (some (c :: cs)) => deepestFieldChild (nextDescendant c cs)
  | n => n
termination_by n => sizeOf n
decreasing_by
  have h := List.sizeOf_lt_of_mem (nextDescendant_mem c cs)
  simp only [List.cons.sizeOf_spec] at h
  simp only [Node.mk.sizeOf_spec, Option.some.sizeOf_spec, List.cons.sizeOf_spec]
  omega

/-- The joined value of a fields array:
`fields.map(f => f.value).filter(Boolean).join(' ')`. -/
def joinFieldValues (fs : List Field) : String :=
  String.intercalate " " (fs.filterMap (fun fl =>
    match fl.value with
    | some v => if v ≠ "" then some v else none
    | none => none))

/-- Embedding of the replacement callback of `replaceAnchorPlaceholders` for
one matched `<a ... data-itemid="itemid" ...>to be migrated</a>` anchor
(this helper is defined in the source but never invoked by the pipeline):
when the referenced node exists and has a non-empty children array, descend
to the deepest node preferring children with non-empty fields and return the
joined field values; in every other case the anchor is replaced by the empty
string. -/
def replaceAnchorPlaceholdersRepl (data : Node) (itemid : String) : String :=
  match findItemById data itemid with
  | some item =>
    match item.children with
    | some (_ :: _) =>
      match (deepestFieldChild item).fields with
      | some fs => joinFieldValues fs
      | none => ""
    | _ => ""
  | none => ""

/-- The phase-2 value selection of `updateAnchorPagesOnTraversal`: the
joined field values of the node itself when its fields array is non-empty,
else the joined field values of the deepest descendant reached by the
descent when the node has a non-empty children array, else the empty
string. -/
def anchorUpdateValue : Node → String
  | .mk _ (some (f :: fs)) _ => joinFieldValues (f :: fs)
  | .mk d none (some (c :: cs)) =>
    match (deepestFieldChild (.mk d none (some (c :: cs)))).fields with
    | some gs => joinFieldValues gs
    | none => ""
  | .mk d (some []) (some (c :: cs)) =>
    match (deepestFieldChild (.mk d (some []) (some (c :: cs)))).fields with
    | some gs => joinFieldValues gs
    | none => ""
  | _ => ""

/-- The per-node step of `updateAnchorPagesOnTraversal`: at a node whose
detail id is in the collected anchor set and whose computed value is
non-empty, get or create the page titled by the id and update it (the
computed value is wrapped in a div by the caller and again by the update). -/
def anchorUpdateStep (anchors : List String) (spaceId : String) (n : Node) (st : Store) :
    Except String Store :=
  match n.detail with
  | some dd =>
    match dd.id with
    | some nid =>
      if anchors.contains nid then
        let value := anchorUpdateValue n
        if value ≠ "" then
          let pr := getOrCreatePageSt spaceId nid ("<div>" ++ value ++ "</div>") st
          match updatePageSt pr.1.id nid spaceId ("<div>" ++ value ++ "</div>")
              pr.1.version pr.2 with
          | .ok (_, st2) => .ok st2
          | .error e => .error e
        else .ok st
      else .ok st
    | none => .ok st
  | none => .ok st

mutual

/-- Embedding of `updateAnchorPagesOnTraversal` against the store: the
per-node update step, then the recursion into the children. -/
def updateAnchorPagesOnTraversal (anchors : List String) (spaceId : String) :
    Node → Store → Except String Store
  | .mk d f cs, st =>
    match anchorUpdateStep anchors spaceId (.mk d f cs) st with
    | .error e => .error e
    | .ok st1 =>
      match cs with
      | some l => updateAnchorPagesListSt anchors spaceId l st1
      | none => .ok st1

/-- The child loop of `updateAnchorPagesOnTraversal`, sequential and
short-circuiting on a thrown error. -/
def updateAnchorPagesListSt (anchors : List String) (spaceId : String) :
    List Node → Store → Except String Store
  | [], st => .ok st
  | cNode :: rest, st =>
    match updateAnchorPagesOnTraversal anchors spaceId cNode st with
    | .ok st1 => updateAnchorPagesListSt anchors spaceId rest st1
    | .error e => .error e

end

mutual

/-- Embedding of the local `findByTitle` of the create path: depth-first
preorder search by detail title. -/
def findByTitle : Node → String → Option Node
  | .mk d f cs, title =>
    if (match d with | some dd => dd.title == some title | none => false) then
      some (.mk d f cs)
    else
      match cs with
      | some l => findByTitleList l title
      | none => none

/-- The child loop of `findByTitle`. -/
def findByTitleList : List Node → String → Option Node
  | [], _ => none
  | c :: rest, title =>
    match findByTitle c title with
    | some found => some found
    | none => findByTitleList rest title

end

/-- The stub body chosen for one collected anchor by the create path of
`migrateJsonToPage`: resolve the anchor by id, then by title; a resolved
node with a fields array contributes its DocumentTitle value (the literal
text undefined when that field has no value, mirroring the template
interpolation), else the first field value when truthy, else the empty
string, wrapped in a div; an unresolved anchor or a node without a fields
array keeps the literal placeholder paragraph. -/
def anchorStubValue (data : Node) (anchor : String) : String :=
  let node := match findItemById data anchor with
    | some n => some n
    | none => findByTitle data anchor
  match node with
  | some n =>
    match n.fields with
    | some fs =>
      match fs.find? (fun fl => fl.name == some "DocumentTitle") with
      | some docTitle => "<div>" ++ docTitle.value.getD "undefined" ++ "</div>"
      | none =>
        "<div>" ++ (match fs with
          | fl :: _ => jsOrStr fl.value ""
          | [] => "") ++ "</div>"
    | none => "<p>to be migrated</p>"
  | none => "<p>to be migrated</p>"

/-- The per-anchor stub loop of the create path: for each collected anchor,
get or create the page titled by the anchor with the chosen stub value. -/
def anchorStubLoop (data : Node) (spaceId : String) : List String → Store → Store
  | [], st => st
  | anchor :: rest, st =>
    anchorStubLoop data spaceId rest
      (getOrCreatePageSt spaceId anchor (anchorStubValue data anchor) st).2

/-- Phase 2 of the create path of `migrateJsonToPage`: the per-anchor stub
get-or-create loop followed by the traversal that backfills anchor pages. -/
def phase2AnchorResolution (data : Node) (anchors : List String) (spaceId : String)
    (st : Store) : Except String Store :=
  updateAnchorPagesOnTraversal anchors spaceId data (anchorStubLoop data spaceId anchors st)

instance {e a : Type} [DecidableEq e] [DecidableEq a] : DecidableEq (Except e a) :=
  fun x y =>
  match x, y with
  | .ok u, .ok v => if h : u = v then isTrue (by rw [h]) else isFalse (by simp [h])
  | .error u, .error v => if h : u = v then isTrue (by rw [h]) else isFalse (by simp [h])
  | .ok _, .error _ => isFalse (by simp)
  | .error _, .ok _ => isFalse (by simp)

/-- Concrete tree for the C1 counterexample: the referenced node d2 exists
in the tree but carries no fields array and no children. -/
def c1Tree : Node :=
  .mk (some ⟨some "d1", some "Home", some "Document"⟩) none (some [
    .mk none (some [⟨some "Text", some "<p>x</p>"⟩]) none,
    .mk (some ⟨some "d2", some "d2", some "Document"⟩) none none])

/-- Counterexample to C1 as stated: the referenced node d2 exists in the
input tree and its anchor is collected, yet after phase 2 completes the stub
page is never updated (the resolved value is empty, so the update is
skipped) and its body still carries the literal placeholder marker. -/
theorem c1_counterexample :
    findItemById c1Tree "d2" ≠ none
    ∧ phase2AnchorResolution c1Tree ["d2"] "10" ⟨[], 0⟩ =
        .ok ⟨[⟨0, "10", "d2", "<div><p>to be migrated</p></div>", 1⟩], 1⟩
    ∧ countSubstr "<div><p>to be migrated</p></div>" "to be migrated" = 1 :=
  ⟨by decide, by decide, by decide⟩

/-! Machinery for the general phase-2 backfill theorem: a store
well-formedness invariant (distinct page ids, fresh next id) and frame and
update lemmas for the per-node traversal step. -/

/-- Well-formed store: page ids are pairwise distinct and the next fresh id
is above every stored id. -/
def storeWF (st : Store) : Prop :=
  (st.pages.map (fun q => q.id)).Nodup ∧ ∀ p ∈ st.pages, p.id < st.nextId

/-- The page the store lookup by space and title returns: the first stored
page with that space and title (the predicate of `getOrCreatePage`). -/
def pageForTitle (spaceId i : String) (st : Store) : Option PageRec :=
  st.pages.find? (fun q => q.spaceId == spaceId && q.title == i)

theorem find?_append_or {a : Type} (p : a → Bool) (l1 l2 : List a) :
    (l1 ++ l2).find? p = (l1.find? p).or (l2.find? p) := by
  induction l1 with
  | nil => cases hf : l2.find? p <;> simp [hf, Option.or]
  | cons x t ih =>
    cases hx : p x with
    | true => simp [List.find?_cons, hx, Option.or]
    | false => simp [List.find?_cons, hx, ih]

theorem eq_of_mem_id_nodup (l : List PageRec)
    (h : (l.map (fun q => q.id)).Nodup) (a b : PageRec) (ha : a ∈ l) (hb : b ∈ l)
    (hid : a.id = b.id) : a = b := by
  induction l with
  | nil => simp at ha
  | cons x rest ih =>
    simp only [List.map_cons, List.nodup_cons] at h
    rcases List.mem_cons.mp ha with rfl | ha2
    · rcases List.mem_cons.mp hb with rfl | hb2
      · rfl
      · exact absurd (hid ▸ List.mem_map_of_mem (fun q => q.id) hb2) h.1
    · rcases List.mem_cons.mp hb with rfl | hb2
      · exact absurd (hid ▸ List.mem_map_of_mem (fun q => q.id) ha2) h.1
      · exact ih h.2 ha2 hb2

theorem find?_id_of_mem_nodup (pages : List PageRec)
    (h : (pages.map (fun q => q.id)).Nodup) (P : PageRec) (hm : P ∈ pages) :
    pages.find? (fun q => q.id == P.id) = some P := by
  induction pages with
  | nil => simp at hm
  | cons a rest ih =>
    simp only [List.map_cons, List.nodup_cons] at h
    cases ha : (a.id == P.id) with
    | true =>
      have haP : a = P := by
        rcases List.mem_cons.mp hm with rfl | hm2
        · rfl
        · have : a.id = P.id := by simpa using ha
          exact absurd (this ▸ List.mem_map_of_mem (fun q => q.id) hm2) h.1
      simp [List.find?_cons, ha, haP]
    | false =>
      have hne : P ≠ a := by
        intro he
        rw [he] at ha
        simp at ha
      have hm2 : P ∈ rest := by
        rcases List.mem_cons.mp hm with rfl | hm2
        · exact absurd rfl hne
        · exact hm2
      simp [List.find?_cons, ha, ih h.2 hm2]

theorem createPageSt_wf (s t h : String) (st : Store) (hw : storeWF st) :
    storeWF (createPageSt s t h st).2 := by
  obtain ⟨hnd, hbd⟩ := hw
  unfold createPageSt
  constructor
  · simp only [List.map_append, List.map_cons, List.map_nil]
    rw [List.nodup_append]
    refine ⟨hnd, List.nodup_singleton _, ?_⟩
    intro x hx hy
    simp only [List.mem_singleton] at hy
    subst hy
    rcases List.mem_map.mp hx with ⟨q, hq, hqe⟩
    exact absurd hqe (Nat.ne_of_lt (hbd q hq))
  · intro p hp
    rcases List.mem_append.mp hp with hp2 | hp2
    · exact Nat.lt_succ_of_lt (hbd p hp2)
    · simp only [List.mem_singleton] at hp2
      subst hp2
      exact Nat.lt_succ_self _

theorem createPageSt_mem (s t h : String) (st : Store) :
    (createPageSt s t h st).1 ∈ (createPageSt s t h st).2.pages := by
  unfold createPageSt
  simp

theorem pageForTitle_createPageSt (spaceId i s t h : String) (st : Store) (P : PageRec)
    (hP : pageForTitle spaceId i st = some P) :
    pageForTitle spaceId i (createPageSt s t h st).2 = some P := by
  unfold pageForTitle at hP ⊢
  unfold createPageSt
  simp only [find?_append_or, hP, Option.or]

theorem getOrCreatePageSt_wf (s t h : String) (st : Store) (hw : storeWF st) :
    storeWF (getOrCreatePageSt s t h st).2 := by
  unfold getOrCreatePageSt
  cases hf : st.pages.find? (fun q => q.spaceId == s && q.title == t) with
  | some p => exact hw
  | none => exact createPageSt_wf s t h st hw

theorem getOrCreatePageSt_mem (s t h : String) (st : Store) :
    (getOrCreatePageSt s t h st).1 ∈ (getOrCreatePageSt s t h st).2.pages := by
  unfold getOrCreatePageSt
  cases hf : st.pages.find? (fun q => q.spaceId == s && q.title == t) with
  | some p =>
    exact List.mem_of_find?_eq_some hf
  | none => exact createPageSt_mem s t h st

theorem pageForTitle_getOrCreatePageSt (spaceId i s t h : String) (st : Store)
    (P : PageRec) (hP : pageForTitle spaceId i st = some P) :
    pageForTitle spaceId i (getOrCreatePageSt s t h st).2 = some P := by
  unfold getOrCreatePageSt
  cases hf : st.pages.find? (fun q => q.spaceId == s && q.title == t) with
  | some p => exact hP
  | none => exact pageForTitle_createPageSt spaceId i s t h st P hP

theorem pageForTitle_getOrCreatePageSt_self (spaceId a h : String) (st : Store) :
    pageForTitle spaceId a (getOrCreatePageSt spaceId a h st).2 =
      some (getOrCreatePageSt spaceId a h st).1 := by
  unfold getOrCreatePageSt
  cases hf : st.pages.find? (fun q => q.spaceId == spaceId && q.title == a) with
  | some p => exact hf
  | none =>
    unfold pageForTitle createPageSt
    simp only [find?_append_or, hf, Option.or, List.find?_cons, List.find?_nil]
    simp

theorem find?_spaceTitle_replaceById_frame (spaceId i : String) (pages : List PageRec)
    (pid : Nat) (newp : PageRec)
    (hnew : ((newp.spaceId == spaceId && newp.title == i) : Bool) = false)
    (hold : ∀ q ∈ pages, q.id = pid →
      ((q.spaceId == spaceId && q.title == i) : Bool) = false) :
    (replaceById pid newp pages).find? (fun q => q.spaceId == spaceId && q.title == i) =
      pages.find? (fun q => q.spaceId == spaceId && q.title == i) := by
  induction pages with
  | nil => rfl
  | cons a rest ih =>
    have hrest : ∀ q ∈ rest, q.id = pid →
        ((q.spaceId == spaceId && q.title == i) : Bool) = false :=
      fun q hq => hold q (List.mem_cons_of_mem _ hq)
    cases ha : (a.id == pid) with
    | true =>
      have haid : a.id = pid := by simpa using ha
      have hafalse := hold a (List.mem_cons_self _ _) haid
      simp [replaceById, ha, List.find?_cons, hnew, hafalse, ih hrest]
    | false =>
      cases hpa : ((a.spaceId == spaceId && a.title == i) : Bool) with
      | true => simp [replaceById, ha, List.find?_cons, hpa]
      | false => simp [replaceById, ha, List.find?_cons, hpa, ih hrest]

theorem find?_spaceTitle_replaceById_found (spaceId i : String) (pages : List PageRec)
    (P newp : PageRec)
    (hnodup : (pages.map (fun q => q.id)).Nodup)
    (hfind : pages.find? (fun q => q.spaceId == spaceId && q.title == i) = some P)
    (hnew : ((newp.spaceId == spaceId && newp.title == i) : Bool) = true) :
    (replaceById P.id newp pages).find? (fun q => q.spaceId == spaceId && q.title == i) =
      some newp := by
  induction pages with
  | nil => simp at hfind
  | cons a rest ih =>
    simp only [List.map_cons, List.nodup_cons] at hnodup
    cases hpa : ((a.spaceId == spaceId && a.title == i) : Bool) with
    | true =>
      have haP : a = P := by simpa [List.find?_cons, hpa] using hfind
      subst haP
      simp [replaceById, List.find?_cons, hnew]
    | false =>
      have hfind2 : rest.find? (fun q => q.spaceId == spaceId && q.title == i) = some P := by
        simpa [List.find?_cons, hpa] using hfind
      have hPmem : P ∈ rest := List.mem_of_find?_eq_some hfind2
      have hne : a.id ≠ P.id :=
        fun he => hnodup.1 (he ▸ List.mem_map_of_mem (fun q => q.id) hPmem)
      have haP : (a.id == P.id) = false := by simpa using hne
      simp [replaceById, haP, List.find?_cons, hpa, ih hnodup.2 hfind2]

/-- A successful update on a member page, under distinct ids: the PUT finds
exactly that page and rewrites its record in place. -/
theorem updatePageSt_ok_of_mem (t s h : String) (cur : Nat) (st : Store)
    (P : PageRec) (hnodup : (st.pages.map (fun q => q.id)).Nodup)
    (hm : P ∈ st.pages) :
    updatePageSt P.id t s h cur st =
      .ok ({ P with
              title := t
              spaceId := s
              body := "<div>" ++ h ++ "</div>"
              version := cur + 1 },
           ⟨replaceById P.id { P with
              title := t
              spaceId := s
              body := "<div>" ++ h ++ "</div>"
              version := cur + 1 } st.pages, st.nextId⟩) := by
  unfold updatePageSt
  rw [find?_id_of_mem_nodup st.pages hnodup P hm]

theorem updatePageSt_wf (pageId : Nat) (t s h : String) (cur : Nat) (st : Store)
    (P2 : PageRec) (st2 : Store) (hw : storeWF st)
    (hok : updatePageSt pageId t s h cur st = .ok (P2, st2)) : storeWF st2 := by
  unfold updatePageSt at hok
  cases hf : st.pages.find? (fun q => q.id == pageId) with
  | none => rw [hf] at hok; exact absurd hok (by simp)
  | some p =>
    rw [hf] at hok
    have hpid : p.id = pageId := by
      have hp := List.find?_some hf
      simpa using hp
    have hok2 := Except.ok.inj hok
    have hst2 : st2 = ⟨replaceById pageId { p with
        title := t
        spaceId := s
        body := "<div>" ++ h ++ "</div>"
        version := cur + 1 } st.pages, st.nextId⟩ := (Prod.mk.injEq _ _ _ _ ▸ hok2).2.symm
    obtain ⟨hnd, hbd⟩ := hw
    have hmap : st2.pages.map (fun q => q.id) = st.pages.map (fun q => q.id) := by
      rw [hst2]
      exact map_id_replaceById st.pages pageId _ hpid
    constructor
    · rw [hmap]; exact hnd
    · intro q hq
      have hqid : q.id ∈ st.pages.map (fun q => q.id) := by
        rw [← hmap]
        exact List.mem_map_of_mem (fun q => q.id) hq
      rcases List.mem_map.mp hqid with ⟨r, hr, hre⟩
      have hnext : st2.nextId = st.nextId := by rw [hst2]
      rw [hnext, ← hre]
      exact hbd r hr

/-- Frame property of the per-node step: a node whose detail id is not the
tracked id never touches the page of that title (it updates only the page
titled by its own id, or no page at all). -/
theorem anchorUpdateStep_frame (anchors : List String) (spaceId i : String)
    (m : Node) (st : Store) (hw : storeWF st) (hm : nodeIdMatches m i = false) :
    ∃ st', anchorUpdateStep anchors spaceId m st = .ok st' ∧ storeWF st' ∧
      pageForTitle spaceId i st' = pageForTitle spaceId i st := by
  unfold anchorUpdateStep
  cases hd : m.detail with
  | none => exact ⟨st, rfl, hw, rfl⟩
  | some dd =>
    dsimp only
    cases hid : dd.id with
    | none => exact ⟨st, rfl, hw, rfl⟩
    | some nid =>
      dsimp only
      have hni : nid ≠ i := by
        unfold nodeIdMatches at hm
        rw [hd] at hm
        dsimp only at hm
        rw [hid] at hm
        intro he
        rw [he] at hm
        simp at hm
      by_cases hcont : anchors.contains nid = true
      · rw [if_pos hcont]
        by_cases hval : anchorUpdateValue m ≠ ""
        · rw [if_pos hval]
          cases hf : st.pages.find? (fun q => q.spaceId == spaceId && q.title == nid) with
          | some Pj =>
            have hgc : getOrCreatePageSt spaceId nid
                ("<div>" ++ anchorUpdateValue m ++ "</div>") st = (Pj, st) := by
              unfold getOrCreatePageSt
              rw [hf]
            rw [hgc]
            have hmem : Pj ∈ st.pages := List.mem_of_find?_eq_some hf
            have hPj : Pj.spaceId = spaceId ∧ Pj.title = nid := by
              have hps := List.find?_some hf
              simpa using hps
            have hupd := updatePageSt_ok_of_mem nid spaceId
              ("<div>" ++ anchorUpdateValue m ++ "</div>") Pj.version st Pj hw.1 hmem
            rw [hupd]
            refine ⟨_, rfl, updatePageSt_wf _ _ _ _ _ _ _ _ hw hupd, ?_⟩
            unfold pageForTitle
            refine find?_spaceTitle_replaceById_frame spaceId i st.pages Pj.id _ ?_ ?_
            · simp [hni]
            · intro q hq hqe
              have hqPj : q = Pj := eq_of_mem_id_nodup st.pages hw.1 q Pj hq hmem hqe
              subst hqPj
              simp [hPj.2, hni]
          | none =>
            have hgc : getOrCreatePageSt spaceId nid
                ("<div>" ++ anchorUpdateValue m ++ "</div>") st =
                createPageSt spaceId nid ("<div>" ++ anchorUpdateValue m ++ "</div>") st := by
              unfold getOrCreatePageSt
              rw [hf]
            rw [hgc]
            have hw1 := createPageSt_wf spaceId nid
              ("<div>" ++ anchorUpdateValue m ++ "</div>") st hw
            have hmem1 := createPageSt_mem spaceId nid
              ("<div>" ++ anchorUpdateValue m ++ "</div>") st
            have hupd := updatePageSt_ok_of_mem nid spaceId
              ("<div>" ++ anchorUpdateValue m ++ "</div>")
              (createPageSt spaceId nid ("<div>" ++ anchorUpdateValue m ++ "</div>") st).1.version
              (createPageSt spaceId nid ("<div>" ++ anchorUpdateValue m ++ "</div>") st).2
              (createPageSt spaceId nid ("<div>" ++ anchorUpdateValue m ++ "</div>") st).1
              hw1.1 hmem1
            rw [hupd]
            refine ⟨_, rfl, updatePageSt_wf _ _ _ _ _ _ _ _ hw1 hupd, ?_⟩
            have hstep1 : pageForTitle spaceId i
                (createPageSt spaceId nid ("<div>" ++ anchorUpdateValue m ++ "</div>") st).2 =
                pageForTitle spaceId i st := by
              unfold pageForTitle createPageSt
              rw [find?_append_or]
              simp [hni]
            rw [← hstep1]
            unfold pageForTitle
            refine find?_spaceTitle_replaceById_frame spaceId i _ _ _ ?_ ?_
            · simp [hni]
            · intro q hq hqe
              have hq2 : q ∈ st.pages ++
                  [⟨st.nextId, spaceId, nid,
                    "<div>" ++ ("<div>" ++ anchorUpdateValue m ++ "</div>") ++ "</div>", 1⟩] := hq
              rcases List.mem_append.mp hq2 with hq3 | hq3
              · have hlt := hw.2 q hq3
                have hqe2 : q.id = st.nextId := hqe
                omega
              · simp only [List.mem_singleton] at hq3
                subst hq3
                simp [hni]
        · rw [if_neg hval]
          exact ⟨st, rfl, hw, rfl⟩
      · rw [if_neg hcont]
        exact ⟨st, rfl, hw, rfl⟩

/-- Update property of the per-node step: a node whose detail id is in the
anchor set and resolves to a non-empty value rewrites the record of the page
of that title in place, double-wrapping the value in divs and stamping the
next version. -/
theorem anchorUpdateStep_update (anchors : List String) (spaceId i : String)
    (m : Node) (dd : Detail) (st : Store) (P : PageRec) (v : String)
    (hw : storeWF st) (hd : m.detail = some dd) (hid : dd.id = some i)
    (hcont : anchors.contains i = true)
    (hv : anchorUpdateValue m = v) (hvne : v ≠ "")
    (hP : pageForTitle spaceId i st = some P) :
    ∃ st', anchorUpdateStep anchors spaceId m st = .ok st' ∧ storeWF st' ∧
      pageForTitle spaceId i st' = some { P with
        title := i
        spaceId := spaceId
        body := "<div>" ++ ("<div>" ++ v ++ "</div>") ++ "</div>"
        version := P.version + 1 } := by
  unfold anchorUpdateStep
  rw [hd]
  dsimp only
  rw [hid]
  dsimp only
  rw [if_pos hcont, hv, if_pos hvne]
  unfold pageForTitle at hP
  have hgc : getOrCreatePageSt spaceId i ("<div>" ++ v ++ "</div>") st = (P, st) := by
    unfold getOrCreatePageSt
    rw [hP]
  rw [hgc]
  have hmem : P ∈ st.pages := List.mem_of_find?_eq_some hP
  have hupd := updatePageSt_ok_of_mem i spaceId ("<div>" ++ v ++ "</div>") P.version st P
    hw.1 hmem
  rw [hupd]
  refine ⟨_, rfl, updatePageSt_wf _ _ _ _ _ _ _ _ hw hupd, ?_⟩
  unfold pageForTitle
  exact find?_spaceTitle_replaceById_found spaceId i st.pages P _ hw.1 hP (by simp)

theorem filter_cons_eq_nil {a : Type} (p : a → Bool) (x : a) (l : List a)
    (h : (x :: l).filter p = []) : p x = false ∧ l.filter p = [] := by
  cases hp : p x with
  | true => simp [List.filter_cons, hp] at h
  | false =>
    refine ⟨rfl, ?_⟩
    simpa [List.filter_cons, hp] using h

theorem filter_append_eq_nil {a : Type} (p : a → Bool) (l1 l2 : List a)
    (h : (l1 ++ l2).filter p = []) : l1.filter p = [] ∧ l2.filter p = [] := by
  rw [List.filter_append] at h
  exact List.append_eq_nil.mp h

theorem filter_cons_eq_singleton {a : Type} (p : a → Bool) (x : a) (l : List a) (y : a)
    (h : (x :: l).filter p = [y]) :
    (p x = true ∧ x = y ∧ l.filter p = []) ∨ (p x = false ∧ l.filter p = [y]) := by
  cases hp : p x with
  | true =>
    left
    rw [List.filter_cons, hp, if_pos rfl] at h
    have h2 : x = y ∧ l.filter p = [] := by simpa using h
    exact ⟨rfl, h2.1, h2.2⟩
  | false =>
    right
    refine ⟨rfl, ?_⟩
    simpa [List.filter_cons, hp] using h

theorem filter_append_eq_singleton {a : Type} (p : a → Bool) (l1 l2 : List a) (y : a)
    (h : (l1 ++ l2).filter p = [y]) :
    (l1.filter p = [y] ∧ l2.filter p = []) ∨ (l1.filter p = [] ∧ l2.filter p = [y]) := by
  rw [List.filter_append] at h
  cases hf : l1.filter p with
  | nil =>
    right
    rw [hf] at h
    exact ⟨rfl, by simpa using h⟩
  | cons z zs =>
    left
    rw [hf, List.cons_append] at h
    have h2 : z = y ∧ zs ++ l2.filter p = [] := by simpa using h
    obtain ⟨hzy, h3⟩ := h2
    rcases List.append_eq_nil.mp h3 with ⟨hzs, hl2⟩
    exact ⟨by rw [hzy, hzs], hl2⟩

mutual

/-- Frame property of the traversal: a subtree with no occurrence of the
tracked id completes without error, keeps the store well formed and leaves
the page of the tracked title exactly as it was. -/
theorem trav_frame : ∀ (anchors : List String) (spaceId i : String) (n : Node)
    (st : Store), storeWF st →
    (preorder n).filter (fun m => nodeIdMatches m i) = [] →
    ∃ st', updateAnchorPagesOnTraversal anchors spaceId n st = .ok st' ∧ storeWF st' ∧
      pageForTitle spaceId i st' = pageForTitle spaceId i st
  | anchors, spaceId, i, .mk d f cs, st, hw, hocc => by
    rw [updateAnchorPagesOnTraversal.eq_def]
    dsimp only
    cases cs with
    | none =>
      have hocc2 : (List.filter (fun m => nodeIdMatches m i) [Node.mk d f none]) = [] := by
        simpa [preorder] using hocc
      obtain ⟨hpm, -⟩ := filter_cons_eq_nil _ _ _ hocc2
      obtain ⟨st1, hstep, hw1, hpf⟩ :=
        anchorUpdateStep_frame anchors spaceId i (.mk d f none) st hw hpm
      rw [hstep]
      exact ⟨st1, rfl, hw1, hpf⟩
    | some l =>
      have hocc2 : (List.filter (fun m => nodeIdMatches m i)
          (Node.mk d f (some l) :: preorderList l)) = [] := by
        simpa [preorder] using hocc
      obtain ⟨hpm, hrest⟩ := filter_cons_eq_nil _ _ _ hocc2
      obtain ⟨st1, hstep, hw1, hpf⟩ :=
        anchorUpdateStep_frame anchors spaceId i (.mk d f (some l)) st hw hpm
      rw [hstep]
      obtain ⟨st2, hlist, hw2, hpf2⟩ := travList_frame anchors spaceId i l st1 hw1 hrest
      exact ⟨st2, hlist, hw2, hpf2.trans hpf⟩
termination_by _a _s i n st _h1 _h2 => sizeOf n

/-- Frame property of the child loop of the traversal. -/
theorem travList_frame : ∀ (anchors : List String) (spaceId i : String) (l : List Node)
    (st : Store), storeWF st →
    (preorderList l).filter (fun m => nodeIdMatches m i) = [] →
    ∃ st', updateAnchorPagesListSt anchors spaceId l st = .ok st' ∧ storeWF st' ∧
      pageForTitle spaceId i st' = pageForTitle spaceId i st
  | anchors, spaceId, i, [], st, hw, _ => by
    rw [updateAnchorPagesListSt.eq_def]
    exact ⟨st, rfl, hw, rfl⟩
  | anchors, spaceId, i, c :: rest, st, hw, hocc => by
    rw [updateAnchorPagesListSt.eq_def]
    dsimp only
    have hocc2 : ((preorder c ++ preorderList rest).filter
        (fun m => nodeIdMatches m i)) = [] := by
      simpa [preorderList] using hocc
    obtain ⟨h1, h2⟩ := filter_append_eq_nil _ _ _ hocc2
    obtain ⟨st1, hc, hw1, hp1⟩ := trav_frame anchors spaceId i c st hw h1
    rw [hc]
    obtain ⟨st2, hr, hw2, hp2⟩ := travList_frame anchors spaceId i rest st1 hw1 h2
    exact ⟨st2, hr, hw2, hp2.trans hp1⟩
termination_by _a _s i l st _h1 _h2 => sizeOf l

end

mutual

/-- Backfill property of the traversal: over a subtree holding exactly one
node with the tracked detail id, the traversal completes and rewrites the
page of that title to the double-div-wrapped resolved value of that node. -/
theorem trav_update : ∀ (anchors : List String) (spaceId i : String) (n : Node)
    (st : Store) (n0 : Node) (v : String) (P : PageRec), storeWF st →
    anchors.contains i = true →
    (preorder n).filter (fun m => nodeIdMatches m i) = [n0] →
    anchorUpdateValue n0 = v → v ≠ "" →
    pageForTitle spaceId i st = some P →
    ∃ st', updateAnchorPagesOnTraversal anchors spaceId n st = .ok st' ∧ storeWF st' ∧
      ∃ P', pageForTitle spaceId i st' = some P'
        ∧ P'.body = "<div>" ++ ("<div>" ++ v ++ "</div>") ++ "</div>"
        ∧ P'.title = i ∧ P'.spaceId = spaceId
  | anchors, spaceId, i, .mk d f cs, st, n0, v, P, hw, hcont, hocc, hv, hvne, hP => by
    rw [updateAnchorPagesOnTraversal.eq_def]
    dsimp only
    cases cs with
    | none =>
      have hocc2 : (List.filter (fun m => nodeIdMatches m i) [Node.mk d f none]) =
          [n0] := by
        simpa [preorder] using hocc
      rcases filter_cons_eq_singleton _ _ _ _ hocc2 with ⟨hpm, hxy, -⟩ | ⟨-, hrest⟩
      · subst hxy
        rw [← hv] at hvne ⊢
        cases d with
        | none =>
          simp [nodeIdMatches, Node.detail] at hpm
        | some dd =>
          have hid : dd.id = some i := by
            simpa [nodeIdMatches, Node.detail] using hpm
          obtain ⟨st1, hstep, hw1, hpf⟩ := anchorUpdateStep_update anchors spaceId i
            (.mk (some dd) f none) dd st P (anchorUpdateValue (.mk (some dd) f none))
            hw rfl hid hcont rfl hvne hP
          rw [hstep]
          exact ⟨st1, rfl, hw1, _, hpf, rfl, rfl, rfl⟩
      · simp at hrest
    | some l =>
      have hocc2 : (List.filter (fun m => nodeIdMatches m i)
          (Node.mk d f (some l) :: preorderList l)) = [n0] := by
        simpa [preorder] using hocc
      rcases filter_cons_eq_singleton _ _ _ _ hocc2 with ⟨hpm, hxy, hrest⟩ | ⟨hpm, hrest⟩
      · subst hxy
        rw [← hv] at hvne ⊢
        cases d with
        | none =>
          simp [nodeIdMatches, Node.detail] at hpm
        | some dd =>
          have hid : dd.id = some i := by
            simpa [nodeIdMatches, Node.detail] using hpm
          obtain ⟨st1, hstep, hw1, hpf⟩ := anchorUpdateStep_update anchors spaceId i
            (.mk (some dd) f (some l)) dd st P
            (anchorUpdateValue (.mk (some dd) f (some l)))
            hw rfl hid hcont rfl hvne hP
          rw [hstep]
          obtain ⟨st2, hlist, hw2, hpf2⟩ := travList_frame anchors spaceId i l st1 hw1 hrest
          exact ⟨st2, hlist, hw2, _, by rw [hpf2]; exact hpf, rfl, rfl, rfl⟩
      · obtain ⟨st1, hstep, hw1, hpf⟩ :=
          anchorUpdateStep_frame anchors spaceId i (.mk d f (some l)) st hw hpm
        rw [hstep]
        exact travList_update anchors spaceId i l st1 n0 v P hw1 hcont hrest hv hvne
          (by rw [hpf]; exact hP)
termination_by _a _s i n st n0 v P _h1 _h2 _h3 _h4 _h5 _h6 => sizeOf n

/-- Backfill property of the child loop of the traversal. -/
theorem travList_update : ∀ (anchors : List String) (spaceId i : String) (l : List Node)
    (st : Store) (n0 : Node) (v : String) (P : PageRec), storeWF st →
    anchors.contains i = true →
    (preorderList l).filter (fun m => nodeIdMatches m i) = [n0] →
    anchorUpdateValue n0 = v → v ≠ "" →
    pageForTitle spaceId i st = some P →
    ∃ st', updateAnchorPagesListSt anchors spaceId l st = .ok st' ∧ storeWF st' ∧
      ∃ P', pageForTitle spaceId i st' = some P'
        ∧ P'.body = "<div>" ++ ("<div>" ++ v ++ "</div>") ++ "</div>"
        ∧ P'.title = i ∧ P'.spaceId = spaceId
  | anchors, spaceId, i, [], st, n0, v, P, hw, hcont, hocc, hv, hvne, hP => by
    simp [preorderList] at hocc
  | anchors, spaceId, i, c :: rest, st, n0, v, P, hw, hcont, hocc, hv, hvne, hP => by
    rw [updateAnchorPagesListSt.eq_def]
    dsimp only
    have hocc2 : ((preorder c ++ preorderList rest).filter
        (fun m => nodeIdMatches m i)) = [n0] := by
      simpa [preorderList] using hocc
    rcases filter_append_eq_singleton _ _ _ _ hocc2 with ⟨h1, h2⟩ | ⟨h1, h2⟩
    · obtain ⟨st1, hc, hw1, P', hpf, hbody, htitle, hsp⟩ :=
        trav_update anchors spaceId i c st n0 v P hw hcont h1 hv hvne hP
      rw [hc]
      obtain ⟨st2, hr, hw2, hp2⟩ := travList_frame anchors spaceId i rest st1 hw1 h2
      exact ⟨st2, hr, hw2, P', by rw [hp2]; exact hpf, hbody, htitle, hsp⟩
    · obtain ⟨st1, hc, hw1, hp1⟩ := trav_frame anchors spaceId i c st hw h1
      rw [hc]
      exact travList_update anchors spaceId i rest st1 n0 v P hw1 hcont h2 hv hvne
        (by rw [hp1]; exact hP)
termination_by _a _s i l st n0 v P _h1 _h2 _h3 _h4 _h5 _h6 => sizeOf l

end

theorem anchorStubLoop_wf (data : Node) (spaceId : String) (anchors : List String)
    (st : Store) (hw : storeWF st) : storeWF (anchorStubLoop data spaceId anchors st) := by
  induction anchors generalizing st with
  | nil => exact hw
  | cons a rest ih =>
    simp only [anchorStubLoop]
    exact ih _ (getOrCreatePageSt_wf _ _ _ _ hw)

theorem anchorStubLoop_preserve (data : Node) (spaceId i : String)
    (anchors : List String) (st : Store) (P : PageRec)
    (hP : pageForTitle spaceId i st = some P) :
    pageForTitle spaceId i (anchorStubLoop data spaceId anchors st) = some P := by
  induction anchors generalizing st with
  | nil => exact hP
  | cons a rest ih =>
    simp only [anchorStubLoop]
    exact ih _ (pageForTitle_getOrCreatePageSt spaceId i spaceId a _ st P hP)

/-- The stub loop leaves a page of the space and title of every collected
anchor in the store. -/
theorem anchorStubLoop_pageFor (data : Node) (spaceId i : String)
    (anchors : List String) (st : Store) (hi : i ∈ anchors) :
    ∃ P, pageForTitle spaceId i (anchorStubLoop data spaceId anchors st) = some P := by
  induction anchors generalizing st with
  | nil => exact absurd hi (List.not_mem_nil i)
  | cons a rest ih =>
    simp only [anchorStubLoop]
    rcases List.mem_cons.mp hi with rfl | hi2
    · exact ⟨_, anchorStubLoop_preserve data spaceId i rest _ _
        (pageForTitle_getOrCreatePageSt_self spaceId i _ st)⟩
    · exact ih _ hi2

theorem divWrapTwice_eq (v : String) :
    "<div>" ++ ("<div>" ++ v ++ "</div>") ++ "</div>" =
      "<div><div>" ++ v ++ "</div></div>" := by
  obtain ⟨ls⟩ := v
  show String.mk _ = String.mk _
  congr 1
  simp

/-- Concrete two-level tree for the descent run of the amended claim: the
referenced node d2 carries no own fields and one child holding the fields. -/
def c1wChild : Node := .mk none (some [⟨some "Text", some "Deep"⟩]) none

/-- The referenced node of the concrete descent run. -/
def c1wNode : Node := .mk (some ⟨some "d2", none, none⟩) none (some [c1wChild])

/-- The input tree of the concrete descent run. -/
def c1wTree : Node := .mk (some ⟨some "d1", none, none⟩) none (some [c1wNode])

/-- C1 amended: the phase-2 resolver prefers the referenced node's own
joined field values whenever its fields list is non-empty (regardless of
children); otherwise, for a node with a non-empty children list, it descends
one level at a time to the first child with a non-empty fields list, else
the first child, stopping when no children remain, and uses the joined field
values of the node so reached; a node resolving to the empty value performs
no update at all; and for a tree holding exactly one node of a collected
anchor id whose resolved value is non-empty, phase 2 completes and leaves
the page of that title holding the double-div-wrapped resolved value. -/
theorem c1_phase2_backfill_amended :
    (∀ (d : Option Detail) (f0 : Field) (fs : List Field) (cs : Option (List Node)),
      anchorUpdateValue (.mk d (some (f0 :: fs)) cs) = joinFieldValues (f0 :: fs))
    ∧ (∀ (d : Option Detail) (f : Option (List Field)) (c : Node) (cs : List Node),
        f = none ∨ f = some [] →
        anchorUpdateValue (.mk d f (some (c :: cs))) =
          (match (deepestFieldChild (.mk d f (some (c :: cs)))).fields with
            | some gs => joinFieldValues gs
            | none => ""))
    ∧ (∀ (d : Option Detail) (f : Option (List Field)) (c : Node) (cs : List Node),
        deepestFieldChild (.mk d f (some (c :: cs))) =
          deepestFieldChild (nextDescendant c cs))
    ∧ (∀ n : Node, (deepestFieldChild n).children = none ∨
        (deepestFieldChild n).children = some [])
    ∧ (∀ (anchors : List String) (spaceId : String) (m : Node) (st : Store),
        anchorUpdateValue m = "" → anchorUpdateStep anchors spaceId m st = .ok st)
    ∧ (∀ (data : Node) (anchors : List String) (spaceId i : String) (n0 : Node)
        (v : String) (st0 : Store),
        storeWF st0 → i ∈ anchors → idOccurrences data i = [n0] →
        anchorUpdateValue n0 = v → v ≠ "" →
        ∃ st' P, phase2AnchorResolution data anchors spaceId st0 = .ok st'
          ∧ pageForTitle spaceId i st' = some P
          ∧ P.body = "<div><div>" ++ v ++ "</div></div>"
          ∧ P.title = i ∧ P.spaceId = spaceId) := by
  refine ⟨?_, ?_, ?_, ?_, ?_, ?_⟩
  · intro d f0 fs cs
    rfl
  · intro d f c cs hf
    rcases hf with rfl | rfl
    · rfl
    · rfl
  · intro d f c cs
    rw [deepestFieldChild]
  · have H : ∀ (k : Nat) (n : Node), sizeOf n ≤ k →
        ((deepestFieldChild n).children = none ∨
          (deepestFieldChild n).children = some []) := by
      intro k
      induction k with
      | zero =>
        intro n hk
        cases n with
        | mk d f cc =>
          simp only [Node.mk.sizeOf_spec] at hk
          omega
      | succ k ih =>
        intro n hk
        cases n with
        | mk d f cc =>
          cases cc with
          | none =>
            rw [deepestFieldChild.eq_def]
            exact Or.inl rfl
          | some l =>
            cases l with
            | nil =>
              rw [deepestFieldChild.eq_def]
              exact Or.inr rfl
            | cons c0 cs0 =>
              rw [deepestFieldChild.eq_def]
              dsimp only
              have hmem := nextDescendant_mem c0 cs0
              have hlt := List.sizeOf_lt_of_mem hmem
              refine ih (nextDescendant c0 cs0) ?_
              simp only [Node.mk.sizeOf_spec, Option.some.sizeOf_spec,
                List.cons.sizeOf_spec] at hk hlt
              omega
    exact fun n => H (sizeOf n) n (Nat.le_refl _)
  · intro anchors spaceId m st hval
    unfold anchorUpdateStep
    cases hd : m.detail with
    | none => rfl
    | some dd =>
      dsimp only
      cases hid : dd.id with
      | none => rfl
      | some nid =>
        dsimp only
        by_cases hcont : anchors.contains nid = true
        · rw [if_pos hcont, hval]
          rw [if_neg (show ¬("" ≠ ("" : String)) by simp)]
        · rw [if_neg hcont]
  · intro data anchors spaceId i n0 v st0 hw hi hocc hv hvne
    unfold phase2AnchorResolution
    have hw1 := anchorStubLoop_wf data spaceId anchors st0 hw
    obtain ⟨P, hP⟩ := anchorStubLoop_pageFor data spaceId i anchors st0 hi
    have hcont : anchors.contains i = true := by simpa using hi
    obtain ⟨st', htrav, hw2, P', hpf, hbody, htitle, hsp⟩ :=
      trav_update anchors spaceId i data (anchorStubLoop data spaceId anchors st0)
        n0 v P hw1 hcont hocc hv hvne hP
    refine ⟨st', P', htrav, hpf, ?_, htitle, hsp⟩
    rw [hbody]
    exact divWrapTwice_eq v

/-- Closed application of the amended C1 theorem: on the concrete two-level
tree the descent resolves the child value Deep and phase 2 rewrites the d2
stub page to that value double-wrapped in divs. -/
theorem c1_phase2_backfill_amended_witness :
    ∃ st' P, phase2AnchorResolution c1wTree ["d2"] "SP" ⟨[], 0⟩ = .ok st'
      ∧ pageForTitle "SP" "d2" st' = some P
      ∧ P.body = "<div><div>" ++ "Deep" ++ "</div></div>"
      ∧ P.title = "d2" ∧ P.spaceId = "SP" := by
  obtain ⟨h1, h2, h3, h4, h5, h6⟩ := c1_phase2_backfill_amended
  have hnd : nextDescendant c1wChild [] = c1wChild := rfl
  have hdf : deepestFieldChild c1wChild = c1wChild := by
    rw [deepestFieldChild.eq_def]
    rfl
  have hv : anchorUpdateValue c1wNode = "Deep" := by
    show anchorUpdateValue
      (.mk (some ⟨some "d2", none, none⟩) none (some (c1wChild :: []))) = "Deep"
    rw [h2 (some ⟨some "d2", none, none⟩) none c1wChild [] (Or.inl rfl),
      h3 (some ⟨some "d2", none, none⟩) none c1wChild [], hnd, hdf]
    rfl
  exact h6 c1wTree ["d2"] "SP" "d2" c1wNode "Deep" ⟨[], 0⟩
    ⟨by simp, by simp⟩ (by simp) (by decide) hv (by decide)

/-! ## The migrateJsonToPage request pipeline -/

/-- Number(s) parses (isNaN(Number(s)) is false): blank text (Number gives
0) or an optionally signed decimal numeral; hex and exponent forms are not
modelled. -/
def jsNumberParses (s : String) : Bool :=
  let t := trimChars s.data
  if t.isEmpty then true
  else
    let t2 := match t with
      | '-' :: r => r
      | '+' :: r => r
      | r => r
    let ip := t2.takeWhile Char.isDigit
    let r := t2.dropWhile Char.isDigit
    match r with
    | [] => !ip.isEmpty
    | '.' :: r2 => (r2.dropWhile Char.isDigit).isEmpty && !(ip.isEmpty && r2.isEmpty)
    | _ => false

/-- The hub space-id resolution of `processSharedContent`: a key that
parses as a number is used directly as the id, any other key goes through
the space-by-key lookup. -/
def resolveHubSpaceId (resolveSpaceKey : String → Option String) (key : String) :
    Option String :=
  if jsNumberParses key then some key else resolveSpaceKey key

/-- Embedding of the full `processSharedContent` including the space-id
resolution wrapper: a falsy resolved id for either hub space aborts the
request with the thrown message. -/
def processSharedContentFull (resolveSpaceKey : String → Option String)
    (sharedParagraphSpaceKey imageHubSpaceKey : String) (data : Node) (acc : SharedAcc) :
    Except String SharedAcc :=
  let spid := resolveHubSpaceId resolveSpaceKey sharedParagraphSpaceKey
  let ihid := resolveHubSpaceId resolveSpaceKey imageHubSpaceKey
  if jsTruthyStr spid = false then
    .error "Missing or invalid sharedParagraphSpaceKey/spaceId"
  else if jsTruthyStr ihid = false then
    .error "Missing or invalid imageHubSpaceKey/spaceId"
  else
    .ok (processSharedContent (spid.getD "") (ihid.getD "") sharedParagraphSpaceKey data acc)

/-- The migration request payload. The keys the source reads are modelled;
the page id is a store id (the JS String conversions around it are
identity here, and a present page id selects the update branch). -/
structure Payload where
  json : Option Node
  spaceId : Option String
  spaceKey : Option String
  pageId : Option Nat
  title : Option String
  sharedParagraphSpaceKey : Option String
  imageHubSpaceKey : Option String

/-- The payload object read as a document node (the `payload.json || payload`
fallback selects the payload itself): the payload schema carries no detail,
fields or children keys, so its node view is empty. -/
def payloadAsNode (_p : Payload) : Node := .mk none none none

/-- JavaScript truthiness of an object value: always true. Both candidates
of `payload.json || payload` are objects, so the selected value is always
truthy. -/
def jsObjectTruthy (_n : Node) : Bool := true

/-- The title precedence of `migrateJsonToPage`: the payload title, else the
detail title of the document, else its DocumentTitle field value, else the
default title. -/
def migrateTitle (p : Payload) (knosysJson : Node) : String :=
  jsOrStr p.title (jsOrStr
    (match knosysJson.detail with
     | some d => d.title
     | none => none)
    (jsOrStr
      (match knosysJson.fields with
       | some fs =>
         match fs.find? (fun fl => fl.name == some "DocumentTitle") with
         | some fl => fl.value
         | none => none
       | none => none)
      "Migrated page from Knosys"))

/-- The literal head of the page-link pattern by which the create path
collects anchor references from the produced markup. -/
def anchorLinkPatternHead : List Char :=
  "<ac:link><ri:page ri:content-title=\"".data

/-- Fueled scan collecting the content titles of page-link constructs: at
each occurrence of the pattern head a non-empty run up to a closing quote is
collected (the tail of the source regex — space key, CDATA body, closing
tags — is emitted by insertAnchorLinksToPages as one piece with this head
and is not re-checked here). -/
def scanAnchorTitlesAux : Nat → List Char → List String
  | 0, _ => []
  | _ + 1, [] => []
  | fuel + 1, ch :: rest =>
    if listStartsWith anchorLinkPatternHead (ch :: rest) then
      let after := (ch :: rest).drop anchorLinkPatternHead.length
      let title := after.takeWhile (fun c2 => !(c2 == (Char.ofNat 34)))
      let rest2 := after.drop title.length
      if title.isEmpty then scanAnchorTitlesAux fuel rest
      else
        match rest2 with
        | '"' :: _ => String.mk title :: scanAnchorTitlesAux fuel rest2
        | _ => scanAnchorTitlesAux fuel rest
    else scanAnchorTitlesAux fuel rest

/-- The collected anchor set, insertion-ordered and deduplicated (the source
collects into a Set). -/
def scanAnchorTitles (s : String) : List String :=
  (scanAnchorTitlesAux s.data.length s.data).eraseDups

/-- The page-top anchor macro prefixed to every assembled body. -/
def pageTopAnchor : String :=
  "<ac:structured-macro ac:name=\"anchor\"><ac:parameter ac:name=\"\">PageTop</ac:parameter></ac:structured-macro>\n"

/-- The result of a migration request: created or updated with the page, or
the uniform error shape. -/
inductive MigResult where
  | okCreated (page : PageRec)
  | okUpdated (page : PageRec)
  | err (message : String)
deriving Repr, DecidableEq

/-- The update branch of the pipeline: fetch the page for its version, then
update it with the assembled body. -/
def migrateUpdateBranch (pid : Nat) (title sid finalHtml : String) (st1 : Store) :
    MigResult × Store :=
  match getPageByIdSt pid st1 with
  | none => (.err "GET page failed: 404", st1)
  | some existing =>
    match updatePageSt pid title sid finalHtml existing.version st1 with
    | .ok pr => (.okUpdated pr.1, pr.2)
    | .error e => (.err e, st1)

/-- The create branch of the pipeline: collect the anchor references from
the produced markup, run the phase-2 stub and backfill pass, then create the
main page with the assembled body. -/
def migrateCreateBranch (knosysJson : Node) (sid title htmlBody finalHtml : String)
    (st1 : Store) : MigResult × Store :=
  match phase2AnchorResolution knosysJson (scanAnchorTitles htmlBody) sid st1 with
  | .error e => (.err e, st1)
  | .ok st2 =>
    let pr := createPageSt sid title finalHtml st2
    (.okCreated pr.1, pr.2)

/-- The pipeline tail after the json fallback and the space resolution:
extraction, the markup rewrite chain, the shared-content pass, then the
update or create branch. -/
def migrateAfterValidation (hT : String → String) (rk : String → Option String)
    (p : Payload) (knosysJson : Node) (sid : String) (st : Store) : MigResult × Store :=
  let htmlBody := hT (jsOrStr (some (extractHtmlFromNode knosysJson))
    "<p>(no content extracted)</p>")
  let finalHtml := pageTopAnchor ++ htmlBody
  let title := migrateTitle p knosysJson
  match processSharedContentFull rk
      (jsOrStr p.sharedParagraphSpaceKey (jsOrStr p.spaceKey (jsOrStr p.spaceId "")))
      (jsOrStr p.imageHubSpaceKey (jsOrStr p.spaceKey (jsOrStr p.spaceId "")))
      knosysJson ⟨[], [], st⟩ with
  | .error e => (.err e, st)
  | .ok acc1 =>
    match p.pageId with
    | some pid => migrateUpdateBranch pid title sid finalHtml acc1.store
    | none => migrateCreateBranch knosysJson sid title htmlBody finalHtml acc1.store

/-- Embedding of the `migrateJsonToPage` resolver of the full pipeline. The
functional parameters model the parts orthogonal to the request control
flow: anchorMigrate stands for migrateAnchorsInJson (a pure rewrite of field
values), htmlTransform for the markup rewrite chain of steps 1.5 to 5
(insertAnchorLinksToPages, fixBrokenLinks, fixExternalLinks,
rewriteInternalLinks, rewriteHiddenLinks, insertAnchorMacros,
convertCheckboxesToTaskList, colorFormatter), and resolveSpaceKey for
getSpaceIdFromKey. Thrown errors are caught at the request boundary and
returned as the uniform error value. -/
def migrateJsonToPage (anchorMigrate : Node → Node) (htmlTransform : String → String)
    (resolveSpaceKey : String → Option String) (p : Payload) (st : Store) :
    MigResult × Store :=
  let knosysJson0 := match p.json with
    | some j => j
    | none => payloadAsNode p
  if jsObjectTruthy knosysJson0 = false then
    (.err "Missing JSON payload under \"json\"", st)
  else
    let knosysJson := anchorMigrate knosysJson0
    let spaceId : Option String :=
      if jsTruthyStr p.spaceId then p.spaceId
      else if jsTruthyStr p.spaceKey then resolveSpaceKey (p.spaceKey.getD "")
      else p.spaceId
    if jsTruthyStr spaceId = false then
      (.err "Missing or invalid spaceId/spaceKey in payload (resolved spaceId is null)", st)
    else
      migrateAfterValidation htmlTransform resolveSpaceKey p knosysJson
        (spaceId.getD "") st

theorem updatePageSt_error_msg (pageId : Nat) (title spaceId htmlValue : String)
    (cur : Nat) (st : Store) (msg : String)
    (h : updatePageSt pageId title spaceId htmlValue cur st = .error msg) :
    msg = "PUT page failed: 404" := by
  unfold updatePageSt at h
  cases hf : st.pages.find? (fun q => q.id == pageId) with
  | none =>
    simp only [hf] at h
    exact (Except.error.injEq _ _ ▸ h).symm
  | some p => simp [hf] at h

theorem anchorUpdateStep_error_msg (anchors : List String) (spaceId : String) (n : Node)
    (st : Store) (msg : String) (h : anchorUpdateStep anchors spaceId n st = .error msg) :
    msg = "PUT page failed: 404" := by
  unfold anchorUpdateStep at h
  cases hd : n.detail with
  | none => simp [hd] at h
  | some dd =>
    cases hid : dd.id with
    | none => simp [hd, hid] at h
    | some nid =>
      simp only [hd, hid] at h
      by_cases hcont : anchors.contains nid = true
      · rw [if_pos hcont] at h
        by_cases hval : anchorUpdateValue n ≠ ""
        · rw [if_pos hval] at h
          cases hu : updatePageSt
              (getOrCreatePageSt spaceId nid ("<div>" ++ anchorUpdateValue n ++ "</div>") st).1.id
              nid spaceId ("<div>" ++ anchorUpdateValue n ++ "</div>")
              (getOrCreatePageSt spaceId nid ("<div>" ++ anchorUpdateValue n ++ "</div>") st).1.version
              (getOrCreatePageSt spaceId nid ("<div>" ++ anchorUpdateValue n ++ "</div>") st).2 with
          | ok pr2 => rw [hu] at h; simp at h
          | error e =>
            rw [hu] at h
            simp only [Except.error.injEq] at h
            rw [← h]
            exact updatePageSt_error_msg _ _ _ _ _ _ _ hu
        · rw [if_neg hval] at h; simp at h
      · rw [if_neg hcont] at h; simp at h

mutual

theorem updateAnchorPagesOnTraversal_error_msg : ∀ (anchors : List String)
    (spaceId : String) (n : Node) (st : Store) (msg : String),
    updateAnchorPagesOnTraversal anchors spaceId n st = .error msg →
    msg = "PUT page failed: 404"
  | anchors, spaceId, .mk d f cs, st, msg, h => by
    rw [updateAnchorPagesOnTraversal.eq_def] at h
    dsimp only at h
    cases hs : anchorUpdateStep anchors spaceId (.mk d f cs) st with
    | error e =>
      rw [hs] at h
      simp only [Except.error.injEq] at h
      rw [← h]
      exact anchorUpdateStep_error_msg anchors spaceId _ st e hs
    | ok st1 =>
      rw [hs] at h
      cases cs with
      | some l => exact updateAnchorPagesListSt_error_msg anchors spaceId l st1 msg h
      | none => simp at h
termination_by a s n st m _h => sizeOf n

theorem updateAnchorPagesListSt_error_msg : ∀ (anchors : List String) (spaceId : String)
    (l : List Node) (st : Store) (msg : String),
    updateAnchorPagesListSt anchors spaceId l st = .error msg →
    msg = "PUT page failed: 404"
  | anchors, spaceId, [], st, msg, h => by simp [updateAnchorPagesListSt] at h
  | anchors, spaceId, cNode :: rest, st, msg, h => by
    rw [updateAnchorPagesListSt.eq_def] at h
    dsimp only at h
    cases ht : updateAnchorPagesOnTraversal anchors spaceId cNode st with
    | ok st1 =>
      rw [ht] at h
      exact updateAnchorPagesListSt_error_msg anchors spaceId rest st1 msg h
    | error e =>
      rw [ht] at h
      simp only [Except.error.injEq] at h
      rw [← h]
      exact updateAnchorPagesOnTraversal_error_msg anchors spaceId cNode st e ht
termination_by a s l st m _h => sizeOf l

end

theorem processSharedContentFull_error_msg (rk : String → Option String)
    (k1 k2 : String) (data : Node) (acc : SharedAcc) (msg : String)
    (h : processSharedContentFull rk k1 k2 data acc = .error msg) :
    msg = "Missing or invalid sharedParagraphSpaceKey/spaceId" ∨
    msg = "Missing or invalid imageHubSpaceKey/spaceId" := by
  unfold processSharedContentFull at h
  by_cases h1 : jsTruthyStr (resolveHubSpaceId rk k1) = false
  · rw [if_pos h1] at h
    simp only [Except.error.injEq] at h
    exact Or.inl h.symm
  · rw [if_neg h1] at h
    by_cases h2 : jsTruthyStr (resolveHubSpaceId rk k2) = false
    · rw [if_pos h2] at h
      simp only [Except.error.injEq] at h
      exact Or.inr h.symm
    · rw [if_neg h2] at h
      simp at h

theorem migrateUpdateBranch_err_msg (pid : Nat) (title sid finalHtml : String)
    (st1 : Store) (msg : String)
    (h : (migrateUpdateBranch pid title sid finalHtml st1).1 = .err msg) :
    msg = "GET page failed: 404" ∨ msg = "PUT page failed: 404" := by
  unfold migrateUpdateBranch at h
  cases hg : getPageByIdSt pid st1 with
  | none =>
    simp only [hg] at h
    exact Or.inl (MigResult.err.inj h).symm
  | some existing =>
    simp only [hg] at h
    cases hu : updatePageSt pid title sid finalHtml existing.version st1 with
    | ok pr => simp only [hu] at h; exact absurd h (by simp)
    | error e =>
      simp only [hu] at h
      have he := updatePageSt_error_msg _ _ _ _ _ _ _ hu
      exact Or.inr (he ▸ (MigResult.err.inj h).symm)

theorem migrateCreateBranch_err_msg (knosysJson : Node)
    (sid title htmlBody finalHtml : String) (st1 : Store) (msg : String)
    (h : (migrateCreateBranch knosysJson sid title htmlBody finalHtml st1).1 = .err msg) :
    msg = "PUT page failed: 404" := by
  unfold migrateCreateBranch at h
  cases hp : phase2AnchorResolution knosysJson (scanAnchorTitles htmlBody) sid st1 with
  | ok st2 => simp only [hp] at h; exact absurd h (by simp)
  | error e =>
    simp only [hp] at h
    have he : e = "PUT page failed: 404" := by
      unfold phase2AnchorResolution at hp
      exact updateAnchorPagesOnTraversal_error_msg _ _ _ _ _ hp
    exact he ▸ (MigResult.err.inj h).symm

theorem migrateAfterValidation_err_msg (hT : String → String)
    (rk : String → Option String) (p : Payload) (knosysJson : Node) (sid : String)
    (st : Store) (msg : String)
    (h : (migrateAfterValidation hT rk p knosysJson sid st).1 = .err msg) :
    msg = "Missing or invalid sharedParagraphSpaceKey/spaceId"
    ∨ msg = "Missing or invalid imageHubSpaceKey/spaceId"
    ∨ msg = "GET page failed: 404"
    ∨ msg = "PUT page failed: 404" := by
  unfold migrateAfterValidation at h
  cases hp : processSharedContentFull rk
      (jsOrStr p.sharedParagraphSpaceKey (jsOrStr p.spaceKey (jsOrStr p.spaceId "")))
      (jsOrStr p.imageHubSpaceKey (jsOrStr p.spaceKey (jsOrStr p.spaceId "")))
      knosysJson ⟨[], [], st⟩ with
  | error e =>
    simp only [hp] at h
    rcases processSharedContentFull_error_msg _ _ _ _ _ _ hp with he | he
    · exact Or.inl (he ▸ (MigResult.err.inj h).symm)
    · exact Or.inr (Or.inl (he ▸ (MigResult.err.inj h).symm))
  | ok acc1 =>
    simp only [hp] at h
    cases hpid : p.pageId with
    | some pid =>
      simp only [hpid] at h
      rcases migrateUpdateBranch_err_msg _ _ _ _ _ _ h with hm | hm
      · exact Or.inr (Or.inr (Or.inl hm))
      · exact Or.inr (Or.inr (Or.inr hm))
    | none =>
      simp only [hpid] at h
      exact Or.inr (Or.inr (Or.inr (migrateCreateBranch_err_msg _ _ _ _ _ _ _ h)))

set_option maxRecDepth 8000 in
/-- Payload of the C9 counterexample: no json key, only a space id. -/
def c9Payload : Payload := ⟨none, some "10", none, none, none, none, none⟩

set_option maxRecDepth 8000 in
/-- Counterexample to C9 as stated: a request whose json payload is missing
does not fail with the missing-payload validation error; the payload object
itself is taken as the document and the request proceeds to extraction and
publish, creating a page with the default title and the no-content body. -/
theorem c9_counterexample :
    (migrateJsonToPage id id (fun _ => none) c9Payload ⟨[], 0⟩).1 =
      .okCreated ⟨0, "10", "Migrated page from Knosys",
        "<div>" ++ (pageTopAnchor ++ "<p>(no content extracted)</p>") ++ "</div>", 1⟩
    ∧ (migrateJsonToPage id id (fun _ => none) c9Payload ⟨[], 0⟩).1 ≠
      .err "Missing JSON payload under \"json\"" :=
  ⟨by decide, by decide⟩

/-- C9 amended: the missing-json guard is unreachable — payload defaults to
a truthy object, so `payload.json || payload` is always truthy and no
request ever fails with the missing-payload message; errors that do occur
are returned as the uniform error value, and a request without any space
identifier fails with the missing-space message. -/
theorem c9_validation_amended :
    (∀ (aM : Node → Node) (hT : String → String) (rk : String → Option String)
        (p : Payload) (st : Store),
      (migrateJsonToPage aM hT rk p st).1 ≠ .err "Missing JSON payload under \"json\"")
    ∧ (∀ (aM : Node → Node) (hT : String → String) (rk : String → Option String)
        (p : Payload) (st : Store),
      jsTruthyStr p.spaceId = false → jsTruthyStr p.spaceKey = false →
      (migrateJsonToPage aM hT rk p st).1 =
        .err "Missing or invalid spaceId/spaceKey in payload (resolved spaceId is null)") := by
  constructor
  · intro aM hT rk p st hcontra
    unfold migrateJsonToPage at hcontra
    dsimp only [jsObjectTruthy] at hcontra
    rw [if_neg (show ¬(true = false) by simp)] at hcontra
    split at hcontra
    · next htrue =>
      rw [if_neg (show ¬(jsTruthyStr p.spaceId = false) by simp [htrue])] at hcontra
      rcases migrateAfterValidation_err_msg _ _ _ _ _ _ _ hcontra with hm | hm | hm | hm <;>
        exact absurd hm (by decide)
    · next hfalse =>
      split at hcontra
      · next h2true =>
        split at hcontra
        · exact absurd (MigResult.err.inj hcontra) (by decide)
        · rcases migrateAfterValidation_err_msg _ _ _ _ _ _ _ hcontra with hm | hm | hm | hm <;>
            exact absurd hm (by decide)
      · next h2false =>
        rw [if_pos (show jsTruthyStr p.spaceId = false by simpa using hfalse)] at hcontra
        exact absurd (MigResult.err.inj hcontra) (by decide)
  · intro aM hT rk p st h1 h2
    unfold migrateJsonToPage
    dsimp only [jsObjectTruthy]
    rw [if_neg (show ¬(true = false) by simp)]
    simp only [h1, h2, Bool.false_eq_true, if_false]
    simp

/-- Witness for the amended C9: the json-missing payload is not rejected by
the missing-payload guard, and a payload without any space identifier gets
the uniform missing-space error. -/
theorem c9_validation_amended_witness :
    (migrateJsonToPage id id (fun _ => none) c9Payload ⟨[], 0⟩).1 ≠
      .err "Missing JSON payload under \"json\""
    ∧ (migrateJsonToPage id id (fun _ => none)
        ⟨none, none, none, none, none, none, none⟩ ⟨[], 0⟩).1 =
      .err "Missing or invalid spaceId/spaceKey in payload (resolved spaceId is null)" :=
  ⟨c9_validation_amended.1 id id (fun _ => none) c9Payload ⟨[], 0⟩,
   c9_validation_amended.2 id id (fun _ => none)
     ⟨none, none, none, none, none, none, none⟩ ⟨[], 0⟩ (by decide) (by decide)⟩

end Mig
